import Mathlib

/-!
Verification development for the chainparser account-decoding library.

The definitions below are a shallow embedding of the Rust sources:
  * `src/discriminator/mod.rs` (account discriminator hashing)
  * `src/discriminator/match_discriminator.rs` (structural discriminator)
  * `src/idl/idl_address.rs` (type-size oracle `idl_type_bytes` / `idl_def_bytes`)
  * `src/ixs/discriminator.rs` (instruction discriminators)
  * `src/deserializer/{borsh,spl,floats}.rs` (primitive codecs)
  * `src/json/*.rs` (JSON-emitting IDL-driven decoder and discriminators)
  * `src/idl/encoder/{idl_encoder,idl_decoder}.rs` (IDL container codec)

Machine integers are modelled as `Nat` (bytes are `Nat` values `< 256`), byte
buffers as `List Nat`, fallible operations as `Except`/`Option`.  Rust slice
index panics are modelled by the explicit error `ChainparserError.PanicOutOfBounds`;
unbounded recursion (through `Defined` type references, which may be cyclic)
is modelled with an explicit fuel parameter.
-/

/-! ## IDL data model (mirrors `solana_idl` as used by chainparser) -/

inductive IdlType where
  | U8 | U16 | U32 | U64 | U128
  | I8 | I16 | I32 | I64 | I128
  | F32 | F64
  | Bool
  | Str          -- `IdlType::String`
  | Bytes
  | PublicKey
  | Array (inner : IdlType) (len : Nat)
  | Vec (inner : IdlType)
  | Tuple (inners : List IdlType)
  | Option (inner : IdlType)
  | COption (inner : IdlType)
  | HashMap (k v : IdlType)
  | BTreeMap (k v : IdlType)
  | HashSet (t : IdlType)
  | BTreeSet (t : IdlType)
  | Defined (name : String)

structure IdlField where
  name : String
  ty : IdlType

inductive EnumFields where
  | Named (fields : List IdlField)
  | TupleFields (types : List IdlType)

structure IdlEnumVariant where
  name : String
  fields : Option EnumFields

inductive IdlTypeDefinitionTy where
  | Struct (fields : List IdlField)
  | Enum (variants : List IdlEnumVariant)

structure IdlTypeDefinition where
  name : String
  ty : IdlTypeDefinitionTy

/-- The `HashMap<String, &IdlTypeDefinitionTy>` used to resolve `Defined` names,
modelled as an association list (names are unique keys). -/
def TypeMap := List (String × IdlTypeDefinitionTy)

def lookupTm (s : String) (tm : TypeMap) : Option IdlTypeDefinitionTy :=
  (List.find? (fun p => p.1 = s) tm).map (·.2)

/-! ## SHA-256 (needed by `account_discriminator` and `anchor_sighash`)

Straightforward executable implementation over byte lists (FIPS 180-4),
32-bit words modelled as `Nat` with explicit `% 2^32`. -/

def M32 : Nat := 4294967296

def rotr32 (n x : Nat) : Nat := ((x >>> n) ||| (x <<< (32 - n))) % M32

def shaBigS0 (x : Nat) : Nat := rotr32 2 x ^^^ rotr32 13 x ^^^ rotr32 22 x
def shaBigS1 (x : Nat) : Nat := rotr32 6 x ^^^ rotr32 11 x ^^^ rotr32 25 x
def shaSmallS0 (x : Nat) : Nat := rotr32 7 x ^^^ rotr32 18 x ^^^ (x >>> 3)
def shaSmallS1 (x : Nat) : Nat := rotr32 17 x ^^^ rotr32 19 x ^^^ (x >>> 10)
def shaCh (x y z : Nat) : Nat := (x &&& y) ^^^ ((x ^^^ 4294967295) &&& z)
def shaMaj (x y z : Nat) : Nat := (x &&& y) ^^^ (x &&& z) ^^^ (y &&& z)

/-- The 64 FIPS 180-4 round constants, stored as 32 packed pairs
(each entry is `k_even * 2^32 + k_odd`); `sha256K` unpacks them. -/
def shaKPacked : List Nat :=
  [4794697085070296209, 13096744586791213989, 4131703405765792241,
   10538285296827260629, 15566598207151758081, 2608012711741390275,
   8268148720858477054, 11230858888332702068, 16472876343709550470,
   1135362055407968716, 3308224257782482090, 6679025011744409818,
   10970295157772109421, 12683024718762704839, 14330467156182405447,
   489312709404862823, 2861767655337697592, 5560940570391088403,
   7280758554198936251, 9350256978237205637, 11727347735703742027,
   14000437183109681571, 15101387698198873636, 17586052440550711408,
   1847814047869135880, 2830643534987574453, 4115178123771292234,
   6601373596217405427, 8399075790807196527, 9568029438005150216,
   10430055239000288491, 13761210420988836082]

def unpack64 (l : List Nat) : List Nat :=
  l.foldr (fun p acc => p / M32 :: p % M32 :: acc) []

def sha256K : List Nat := unpack64 shaKPacked

/-- The 8 initial hash words, stored as 4 packed pairs like `shaKPacked`. -/
def shaH0Packed : List Nat :=
  [7640891576010911365, 4354685563439150394, 5840696474761259148,
   2270897967128956185]

def sha256H0 : List Nat := unpack64 shaH0Packed

def be64 (n : Nat) : List Nat :=
  [(n >>> 56) % 256, (n >>> 48) % 256, (n >>> 40) % 256, (n >>> 32) % 256,
   (n >>> 24) % 256, (n >>> 16) % 256, (n >>> 8) % 256, n % 256]

def be32 (n : Nat) : List Nat :=
  [(n >>> 24) % 256, (n >>> 16) % 256, (n >>> 8) % 256, n % 256]

def shaPad (msg : List Nat) : List Nat :=
  let L := msg.length
  let k := (120 - ((L + 1) % 64)) % 64
  msg ++ [0x80] ++ List.replicate k 0 ++ be64 (8 * L)

def toWordsBE : List Nat → List Nat
  | a :: b :: c :: d :: rest => (((a * 256 + b) * 256 + c) * 256 + d) :: toWordsBE rest
  | _ => []

def shaExtendStep (w : List Nat) : List Nat :=
  let l := w.length
  let nw := (w.getD (l - 16) 0 + shaSmallS0 (w.getD (l - 15) 0) +
             w.getD (l - 7) 0 + shaSmallS1 (w.getD (l - 2) 0)) % M32
  w ++ [nw]

def shaExtend : List Nat → Nat → List Nat
  | w, 0 => w
  | w, n + 1 => shaExtend (shaExtendStep w) n

def shaRound (st : List Nat) (kw : Nat × Nat) : List Nat :=
  match st with
  | [a, b, c, d, e, f, g, h] =>
    let t1 := (h + shaBigS1 e + shaCh e f g + kw.1 + kw.2) % M32
    let t2 := (shaBigS0 a + shaMaj a b c) % M32
    [(t1 + t2) % M32, a, b, c, (d + t1) % M32, e, f, g]
  | other => other

def shaCompress (h : List Nat) (block : List Nat) : List Nat :=
  let w := shaExtend (toWordsBE block) 48
  let st := (sha256K.zip w).foldl shaRound h
  (h.zip st).map (fun p => (p.1 + p.2) % M32)

def shaChunksGo : Nat → List Nat → List (List Nat)
  | 0, _ => []
  | _, [] => []
  | n + 1, x :: rest => ((x :: rest).take 64) :: shaChunksGo n ((x :: rest).drop 64)

def shaChunks (l : List Nat) : List (List Nat) := shaChunksGo l.length l

def sha256 (msg : List Nat) : List Nat :=
  (((shaChunks (shaPad msg)).foldl shaCompress sha256H0).map be32).foldl (· ++ ·) []

/-- Bytes of an (ASCII) Rust string, as produced by `str::as_bytes`. -/
def strBytes (s : String) : List Nat := s.data.map Char.toNat

/-! ## Type-size oracle (`idl_type_bytes` / `idl_def_bytes`, src/idl/idl_address.rs)

The Rust functions recurse through `Defined` references resolved in the type
map, which may be cyclic, so the Rust recursion need not terminate; the extra
`fuel` argument, consumed on every recursive call, models the Rust call stack
(`none` on fuel exhaustion coincides with the code's `None` answers only in
the limit; theorems quantify over sufficient fuel).  The three mutually
recursive Rust functions are combined into one structural recursion on fuel. -/

inductive SizeReq where
  | ty (t : IdlType)
  | tdef (d : IdlTypeDefinitionTy)
  | fields (fs : List IdlField)

def size_go : Nat → SizeReq → Option TypeMap → Option Nat
  | 0, _, _ => none
  | fuel + 1, .ty t, tm =>
    match t with
    | .U8 => some 1
    | .U16 => some 2
    | .U32 => some 4
    | .U64 => some 8
    | .U128 => some 16
    | .I8 => some 1
    | .I16 => some 2
    | .I32 => some 4
    | .I64 => some 8
    | .I128 => some 16
    | .F32 => some 4
    | .F64 => some 8
    | .Bool => some 1
    | .PublicKey => some 32
    | .Array inner len => (size_go fuel (.ty inner) tm).map (· * len)
    | .COption inner => (size_go fuel (.ty inner) tm).map (· + 4)
    | .Defined s =>
      match tm.bind (lookupTm s) with
      | some d => size_go fuel (.tdef d) tm
      | none => none
    | _ => none
  | fuel + 1, .tdef d, tm =>
    match d with
    | .Struct fields => size_go fuel (.fields fields) tm
    | .Enum variants =>
      if variants.all (fun v => v.fields.isNone) then some 1 else none
  | _ + 1, .fields [], _ => some 0
  | fuel + 1, .fields (f :: rest), tm =>
    match size_go fuel (.ty f.ty) tm with
    | some size => (size_go fuel (.fields rest) tm).map (· + size)
    | none => none

/-- `idl_type_bytes` from `src/idl/idl_address.rs` (fuelled). -/
def idl_type_bytes (fuel : Nat) (ty : IdlType) (tm : Option TypeMap) : Option Nat :=
  size_go fuel (.ty ty) tm

/-- `idl_def_bytes` from `src/idl/idl_address.rs` (fuelled). -/
def idl_def_bytes (fuel : Nat) (d : IdlTypeDefinitionTy) (tm : Option TypeMap) : Option Nat :=
  size_go fuel (.tdef d) tm

/-! ## Discriminator hashing (src/discriminator/mod.rs, src/ixs/discriminator.rs) -/

/-- `account_discriminator` from `src/discriminator/mod.rs`: first 8 bytes of
`SHA-256("account:" ++ name)`, the name used exactly as cased in the IDL. -/
def account_discriminator (name : String) : List Nat :=
  (sha256 (strBytes ("account:" ++ name))).take 8

def isUpperB (c : Nat) : Bool := 65 ≤ c && c ≤ 90
def isLowerB (c : Nat) : Bool := 97 ≤ c && c ≤ 122
def isDigitB (c : Nat) : Bool := 48 ≤ c && c ≤ 57
def toLowB (c : Nat) : Nat := if isUpperB c then c + 32 else c

/-- Modelled from the spec: the snake-case normalization applied to instruction
names ("snake-case-normalized" convention) comes from the external `heck`
crate (`ToSnakeCase`), which is not part of this repository.  This model
covers ASCII identifier names: a word boundary (inserting `_`, lowercasing
everything) falls between a lowercase letter or digit and an uppercase letter,
and between two uppercase letters when the second starts a new lowercase word. -/
def snakeChars : List Nat → List Nat
  | [] => []
  | [c] => [toLowB c]
  | c1 :: c2 :: rest =>
    if (isLowerB c1 || isDigitB c1) && isUpperB c2 then
      toLowB c1 :: 95 :: snakeChars (c2 :: rest)
    else if isUpperB c1 && isUpperB c2 && (match rest with
        | c3 :: _ => isLowerB c3
        | [] => false) then
      toLowB c1 :: 95 :: snakeChars (c2 :: rest)
    else
      toLowB c1 :: snakeChars (c2 :: rest)

def toSnakeCase (s : String) : String :=
  String.mk ((snakeChars (s.data.map Char.toNat)).map Char.ofNat)

/-- `anchor_sighash` from `src/ixs/discriminator.rs`: the instruction name is
snake-cased before hashing. -/
def anchor_sighash (ns : String) (ix_name : String) : List Nat :=
  (sha256 (strBytes (ns ++ ":" ++ toSnakeCase ix_name))).take 8

structure IdlInstructionDiscriminant where
  value : Nat
  bytes : Option (List Nat)

structure IdlInstruction where
  name : String
  discriminant : Option IdlInstructionDiscriminant

/-- `discriminator_from_ix` from `src/ixs/discriminator.rs`. -/
def discriminator_from_ix (ix : IdlInstruction) : List Nat :=
  match ix.discriminant with
  | some d => d.bytes.getD [d.value]
  | none => anchor_sighash "global" ix.name

/-! ## Errors (src/errors.rs, restricted to the variants the claims reach)

Payloads that in Rust carry an inner `io::Error`/`TryFromSliceError` keep only
the surrounding diagnostic data.  `PanicOutOfBounds` models a Rust slice-index
panic (`&buf[..]` / `array_ref!` out of range); `OutOfFuel` models exhaustion
of the fuel that stands in for the unbounded Rust call stack. -/

inductive ChainparserError where
  | BorshIoError
  | BorshDeserializeTypeError (kind : String) (buf : List Nat)
  | BorshDeserializeFloatError (kind : String) (buf : List Nat)
  | TryFromSliceError (kind : String) (buf : List Nat)
  | CompositeDeserializeError (loc : String) (inner : ChainparserError)
  | FieldDeserializeError (name : String) (inner : ChainparserError)
  | EnumVariantDeserializeError (name : String) (inner : ChainparserError)
  | StructDeserializeError (name : String) (inner : ChainparserError)
  | EnumDeserializeError (name : String) (inner : ChainparserError)
  | DeserializerDoesNotSupportType (de : String) (ty : String)
  | InvalidDataToDeserialize (kind : String) (msg : String) (bytes : List Nat)
  | UnknownAccount (name : String)
  | UnknownDiscriminatedAccount (tag : List Nat)
  | CannotFindDeserializerForAccount
  | CannotFindDefinedType (name : String)
  | InvalidEnumVariantDiscriminator (d : Nat)
  | AccountDataTooShortForDiscriminatorBytes (got need : Nat)
  | PanicOutOfBounds
  | OutOfFuel
deriving Repr, DecidableEq

abbrev CPResult (α : Type) := Except ChainparserError α

/-! ## Primitive codec (src/deserializer/{borsh,floats,spl}.rs)

Readers take a byte buffer and return the decoded value together with the
remaining buffer (the Rust code advances a `&mut &[u8]` cursor). -/

/-- Little-endian value of a byte list. -/
def leNat (bytes : List Nat) : Nat := bytes.foldr (fun b acc => b + 256 * acc) 0

/-- Raw borsh fixed-width read: `width` bytes little-endian. -/
def readLE (width : Nat) (kind : String) (buf : List Nat) : CPResult (Nat × List Nat) :=
  if width ≤ buf.length then
    .ok (leNat (buf.take width), buf.drop width)
  else
    .error (.BorshDeserializeTypeError kind buf)

/-- Two's-complement reinterpretation of a `width`-byte unsigned value. -/
def toSigned (width : Nat) (v : Nat) : Int :=
  if v < 2 ^ (8 * width - 1) then (v : Int) else (v : Int) - 2 ^ (8 * width)

/-- borsh `bool`: one byte, `0 => false`, `1 => true`, anything else fails. -/
def readBool (buf : List Nat) : CPResult (Bool × List Nat) :=
  match buf with
  | b :: rest =>
    if b = 0 then .ok (false, rest)
    else if b = 1 then .ok (true, rest)
    else .error (.BorshDeserializeTypeError "bool" buf)
  | [] => .error (.BorshDeserializeTypeError "bool" buf)

/-- Strict UTF-8 decoding (as `String::from_utf8`): code points of the byte
list, rejecting overlong forms, surrogates and values above `0x10FFFF`. -/
def utf8Decode : List Nat → Option (List Nat)
  | [] => some []
  | b :: rest =>
    if b < 0x80 then (utf8Decode rest).map (b :: ·)
    else if 0xC2 ≤ b && b ≤ 0xDF then
      match rest with
      | c :: rest2 =>
        if 0x80 ≤ c && c ≤ 0xBF then
          (utf8Decode rest2).map (((b - 0xC0) * 64 + (c - 0x80)) :: ·)
        else none
      | _ => none
    else if 0xE0 ≤ b && b ≤ 0xEF then
      match rest with
      | c :: d :: rest2 =>
        let lo1 := if b = 0xE0 then 0xA0 else 0x80
        let hi1 := if b = 0xED then 0x9F else 0xBF
        if lo1 ≤ c && c ≤ hi1 && 0x80 ≤ d && d ≤ 0xBF then
          (utf8Decode rest2).map
            (((b - 0xE0) * 4096 + (c - 0x80) * 64 + (d - 0x80)) :: ·)
        else none
      | _ => none
    else if 0xF0 ≤ b && b ≤ 0xF4 then
      match rest with
      | c :: d :: e :: rest2 =>
        let lo1 := if b = 0xF0 then 0x90 else 0x80
        let hi1 := if b = 0xF4 then 0x8F else 0xBF
        if lo1 ≤ c && c ≤ hi1 && 0x80 ≤ d && d ≤ 0xBF && 0x80 ≤ e && e ≤ 0xBF then
          (utf8Decode rest2).map
            (((b - 0xF0) * 262144 + (c - 0x80) * 4096 + (d - 0x80) * 64 + (e - 0x80)) :: ·)
        else none
      | _ => none
    else none

/-- borsh `String`: u32 length, then that many bytes, which must be valid UTF-8. -/
def readString (buf : List Nat) : CPResult (String × List Nat) :=
  match readLE 4 "String" buf with
  | .error e => .error e
  | .ok (len, rest) =>
    if len ≤ rest.length then
      match utf8Decode (rest.take len) with
      | some cps => .ok (String.mk (cps.map Char.ofNat), rest.drop len)
      | none => .error (.BorshDeserializeTypeError "String" buf)
    else .error (.BorshDeserializeTypeError "String" buf)

/-- borsh `Vec<u8>`: u32 length then raw bytes. -/
def readBytesVec (buf : List Nat) : CPResult (List Nat × List Nat) :=
  match readLE 4 "bytes" buf with
  | .error e => .error e
  | .ok (len, rest) =>
    if len ≤ rest.length then .ok (rest.take len, rest.drop len)
    else .error (.BorshDeserializeTypeError "bytes" buf)

/-! ## NaN-tolerant floats (src/deserializer/floats.rs)

Float values are represented by their IEEE-754 bit pattern (`FVal.val bits`)
or the canonical NaN produced by the reader (`FVal.nan`); the decimal text a
Rust `f32`/`f64` renders to is not modelled (no claim depends on it), floats
are printed from their bit pattern. -/

inductive FVal where
  | nan
  | val (bits : Nat)
deriving Repr, DecidableEq

/-- NaN predicate on f32 bit patterns (exponent all ones, mantissa nonzero). -/
def f32IsNan (bits : Nat) : Bool := (bits / 8388608) % 256 = 255 && bits % 8388608 ≠ 0

/-- NaN predicate on f64 bit patterns (exponent all ones, mantissa nonzero). -/
def f64IsNan (bits : Nat) : Bool :=
  (bits / 4503599627370496) % 2048 = 2047 && bits % 4503599627370496 ≠ 0

/-- `f32::deserialize` of borsh: 4 bytes little-endian, NaN bit patterns are
rejected ("For portability reasons we do not allow to deserialize NaNs"). -/
def borshF32std (buf : List Nat) : CPResult (FVal × List Nat) :=
  if 4 ≤ buf.length then
    let bits := leNat (buf.take 4)
    if f32IsNan bits then .error (.BorshDeserializeFloatError "f32" (buf.take 4))
    else .ok (.val bits, buf.drop 4)
  else .error (.BorshDeserializeFloatError "f32" buf)

/-- `f64::deserialize` of borsh: 8 bytes little-endian, NaN rejected. -/
def borshF64std (buf : List Nat) : CPResult (FVal × List Nat) :=
  if 8 ≤ buf.length then
    let bits := leNat (buf.take 8)
    if f64IsNan bits then .error (.BorshDeserializeFloatError "f64" (buf.take 8))
    else .ok (.val bits, buf.drop 8)
  else .error (.BorshDeserializeFloatError "f64" buf)

def LOWER7_BITS_MASK : Nat := 0x7F
def UPPER4_BITS_MASK : Nat := 0xF0

/-- `deserialize_f32` from `src/deserializer/floats.rs`. -/
def deserialize_f32 (buf : List Nat) : CPResult (FVal × List Nat) :=
  if 4 ≤ buf.length then
    if (buf.getD 3 0) &&& LOWER7_BITS_MASK = LOWER7_BITS_MASK then
      .ok (.nan, buf.drop 4)
    else borshF32std buf
  else borshF32std buf

/-- `deserialize_f64` from `src/deserializer/floats.rs`. -/
def deserialize_f64 (buf : List Nat) : CPResult (FVal × List Nat) :=
  if 8 ≤ buf.length then
    if (buf.getD 6 0) &&& UPPER4_BITS_MASK = UPPER4_BITS_MASK ∧
       (buf.getD 7 0) &&& LOWER7_BITS_MASK = LOWER7_BITS_MASK then
      .ok (.nan, buf.drop 8)
    else borshF64std buf
  else borshF64std buf

/-! ## The size oracle as called by `SplDeserializer::coption`

`SplDeserializer::coption` calls `idl::idl_type_bytes(inner, None)` with no
type map; with `None` the Rust recursion is structural (a `Defined` reference
immediately yields `None`), so it is embedded directly without fuel. -/

def idl_type_bytes_nomap : IdlType → Option Nat
  | .U8 => some 1
  | .U16 => some 2
  | .U32 => some 4
  | .U64 => some 8
  | .U128 => some 16
  | .I8 => some 1
  | .I16 => some 2
  | .I32 => some 4
  | .I64 => some 8
  | .I128 => some 16
  | .F32 => some 4
  | .F64 => some 8
  | .Bool => some 1
  | .PublicKey => some 32
  | .Array inner len => (idl_type_bytes_nomap inner).map (· * len)
  | .COption inner => (idl_type_bytes_nomap inner).map (· + 4)
  | _ => none

/-- Structural depth of a type, used to supply sufficient fuel. -/
def typeDepth : IdlType → Nat
  | .Array inner _ => typeDepth inner + 1
  | .COption inner => typeDepth inner + 1
  | _ => 1

/-- `SplDeserializer::coption` from `src/deserializer/spl.rs`: 4-byte tag;
`[0,0,0,0]` absent (skip `size_of(inner)` further bytes, known sizes only),
`[1,0,0,0]` present, anything else invalid. -/
def splCoption (inner : IdlType) (buf : List Nat) : CPResult (Bool × List Nat) :=
  if buf.length < 4 then
    .error (.InvalidDataToDeserialize "coption" "buf too short" buf)
  else
    let tag := buf.take 4
    let rest := buf.drop 4
    if tag = [0, 0, 0, 0] then
      match idl_type_bytes_nomap inner with
      | some n =>
        if n ≤ rest.length then .ok (false, rest.drop n)
        else .error .PanicOutOfBounds
      | none =>
        .error (.InvalidDataToDeserialize "coption"
          "byte size of inner type needs to be known when it is None" rest)
    else if tag = [1, 0, 0, 0] then .ok (true, rest)
    else .error (.InvalidDataToDeserialize "coption" "invalid tag" tag)

/-! ## Public keys and base-58 rendering -/

/-- Big-endian value of a byte list. -/
def beNat (bytes : List Nat) : Nat := bytes.foldl (fun acc b => acc * 256 + b) 0

def b58Alphabet : List Nat :=
  strBytes "123456789ABCDEFGHJKLMNPQRSTUVWXYZabcdefghijkmnopqrstuvwxyz"

def natToB58go : Nat → Nat → List Nat
  | 0, _ => []
  | fuel + 1, n => if n = 0 then [] else (n % 58) :: natToB58go fuel (n / 58)

/-- Base-58 rendering of a 32-byte public key (Solana convention). -/
def base58Encode (bytes : List Nat) : String :=
  let digits := (natToB58go 64 (beNat bytes)).reverse
  let zeros := (bytes.takeWhile (· = 0)).length
  String.mk ((List.replicate zeros 49 ++ digits.map (fun d => b58Alphabet.getD d 49)).map
    Char.ofNat)

/-- `BorshDeserializer::pubkey`: borsh reads 32 raw bytes (error if short). -/
def borshPubkey (buf : List Nat) : CPResult (List Nat × List Nat) :=
  if 32 ≤ buf.length then .ok (buf.take 32, buf.drop 32)
  else .error (.BorshDeserializeTypeError "Pubkey" buf)

/-- `SplDeserializer::pubkey`: `&buf[0..32]` panics when the buffer is short,
then `Pubkey::try_from` on a 32-byte slice always succeeds. -/
def splPubkey (buf : List Nat) : CPResult (List Nat × List Nat) :=
  if 32 ≤ buf.length then .ok (buf.take 32, buf.drop 32)
  else .error .PanicOutOfBounds

/-! ## JSON-emitting decoder (src/json/*.rs)

One structural recursion on fuel covering `JsonIdlTypeDeserializer::deserialize`
(requests `.ty` and the per-container element loops),
`JsonIdlTypeDefinitionDeserializer::deserialize` (request `.tdef`),
`deserialize_fields_to_object` (requests `.fieldsObj`/`.fieldsLoop`) and
`JsonIdlEnumVariantDeserializer::deserialize` (request `.variantDe`).
The JSON text is accumulated in the returned `String` (the Rust code streams
it to a `fmt::Write` sink). -/

inductive Provider where
  | borsh
  | spl
deriving Repr, DecidableEq

/-- `JsonSerializationOpts` from `src/json/json_serialization_opts.rs`. -/
structure JsonSerializationOpts where
  pubkey_as_base58 : Bool
  n64_as_string : Bool
  n128_as_string : Bool
deriving Repr, DecidableEq

def defaultOpts : JsonSerializationOpts :=
  { pubkey_as_base58 := true, n64_as_string := false, n128_as_string := false }

/-- `write_quoted` from `src/json/json_common.rs` (no escaping pass). -/
def write_quoted (s : String) : String := "\"" ++ s ++ "\""

/-- `de.option`: borsh reads one byte (`present iff != 0`), spl does not
support `Option`. -/
def readOption (p : Provider) (buf : List Nat) : CPResult (Bool × List Nat) :=
  match p with
  | .borsh =>
    match readLE 1 "u8" buf with
    | .ok (v, rest) => .ok (v ≠ 0, rest)
    | .error e => .error e
  | .spl => .error (.DeserializerDoesNotSupportType "spl" "option")

/-- `de.coption`: borsh does not support `COption`, spl reads the 4-byte tag. -/
def readCOption (p : Provider) (inner : IdlType) (buf : List Nat) :
    CPResult (Bool × List Nat) :=
  match p with
  | .borsh => .error (.DeserializerDoesNotSupportType "borsh" "coption")
  | .spl => splCoption inner buf

def readPubkey (p : Provider) (buf : List Nat) : CPResult (List Nat × List Nat) :=
  match p with
  | .borsh => borshPubkey buf
  | .spl => splPubkey buf

def readF32 (buf : List Nat) : CPResult (FVal × List Nat) := deserialize_f32 buf

def readF64 (buf : List Nat) : CPResult (FVal × List Nat) := deserialize_f64 buf

/-- Render a float value the way the sink receives it; the decimal text of a
non-NaN IEEE value is abstracted to its bit pattern. -/
def renderFVal (kind : String) : FVal → String
  | .nan => "NaN"
  | .val bits => kind ++ "<" ++ toString bits ++ ">"

/-- `write!(f, "{:?}", pubkey.to_bytes())`: Rust debug format of a byte array. -/
def renderByteArray (bytes : List Nat) : String :=
  "[" ++ String.intercalate ", " (bytes.map toString) ++ "]"

/-- Apply a rendering function to the decoded value, keeping the cursor. -/
def emit (render : α → String) (r : CPResult (α × List Nat)) :
    CPResult (String × List Nat) :=
  r.map (fun vr => (render vr.1, vr.2))

def wrapErr (w : ChainparserError → ChainparserError) (r : CPResult (String × List Nat)) :
    CPResult (String × List Nat) :=
  r.mapError w

inductive DeReq where
  | ty (t : IdlType)
  | arrLoop (inner : IdlType) (i len : Nat)
  | vecLoop (inner : IdlType) (i len : Nat)
  | mapLoop (k v : IdlType) (i len : Nat)
  | setLoop (inner : IdlType) (i len : Nat)
  | tupLoop (ts : List IdlType)
  | tdefDe (name : String) (d : IdlTypeDefinitionTy)
  | fieldsObj (fs : List IdlField)
  | fieldsLoop (fs : List IdlField)
  | variantDe (v : IdlEnumVariant)

def de_go (p : Provider) (opts : JsonSerializationOpts) (tm : TypeMap) :
    Nat → DeReq → List Nat → CPResult (String × List Nat)
  | 0, _, _ => .error .OutOfFuel
  | fuel + 1, .ty t, buf =>
    match t with
    | .U8 => emit toString (readLE 1 "u8" buf)
    | .U16 => emit toString (readLE 2 "u16" buf)
    | .U32 => emit toString (readLE 4 "u32" buf)
    | .U64 =>
      emit (fun v => if opts.n64_as_string then write_quoted (toString v) else toString v)
        (readLE 8 "u64" buf)
    | .U128 =>
      emit (fun v => if opts.n128_as_string then write_quoted (toString v) else toString v)
        (readLE 16 "u128" buf)
    | .I8 => emit (fun v => toString (toSigned 1 v)) (readLE 1 "i8" buf)
    | .I16 => emit (fun v => toString (toSigned 2 v)) (readLE 2 "i16" buf)
    | .I32 => emit (fun v => toString (toSigned 4 v)) (readLE 4 "i32" buf)
    | .I64 =>
      emit (fun v =>
          if opts.n64_as_string then write_quoted (toString (toSigned 8 v))
          else toString (toSigned 8 v))
        (readLE 8 "i64" buf)
    | .I128 =>
      emit (fun v =>
          if opts.n128_as_string then write_quoted (toString (toSigned 16 v))
          else toString (toSigned 16 v))
        (readLE 16 "i128" buf)
    | .F32 => emit (renderFVal "f32") (readF32 buf)
    | .F64 => emit (renderFVal "f64") (readF64 buf)
    | .Bool => emit toString (readBool buf)
    | .Str => emit write_quoted (readString buf)
    | .Tuple inners =>
      match de_go p opts tm fuel (.tupLoop inners) buf with
      | .ok (s, rest) => .ok ("[" ++ s ++ "]", rest)
      | .error e => .error e
    | .Array inner len =>
      match de_go p opts tm fuel (.arrLoop inner 0 len) buf with
      | .ok (s, rest) => .ok ("[" ++ s ++ "]", rest)
      | .error e => .error e
    | .Vec inner =>
      match readLE 4 "u32" buf with
      | .ok (len, rest) =>
        match de_go p opts tm fuel (.vecLoop inner 0 len) rest with
        | .ok (s, rest2) => .ok ("[" ++ s ++ "]", rest2)
        | .error e => .error e
      | .error e => .error e
    | .HashMap k v =>
      match readLE 4 "u32" buf with
      | .ok (len, rest) =>
        match de_go p opts tm fuel (.mapLoop k v 0 len) rest with
        | .ok (s, rest2) => .ok ("\x7b" ++ s ++ "\x7d", rest2)
        | .error e => .error e
      | .error e => .error e
    | .BTreeMap k v =>
      match readLE 4 "u32" buf with
      | .ok (len, rest) =>
        match de_go p opts tm fuel (.mapLoop k v 0 len) rest with
        | .ok (s, rest2) => .ok ("\x7b" ++ s ++ "\x7d", rest2)
        | .error e => .error e
      | .error e => .error e
    | .HashSet inner =>
      match readLE 4 "u32" buf with
      | .ok (len, rest) =>
        match de_go p opts tm fuel (.setLoop inner 0 len) rest with
        | .ok (s, rest2) => .ok ("[" ++ s ++ "]", rest2)
        | .error e => .error e
      | .error e => .error e
    | .BTreeSet inner =>
      match readLE 4 "u32" buf with
      | .ok (len, rest) =>
        match de_go p opts tm fuel (.setLoop inner 0 len) rest with
        | .ok (s, rest2) => .ok ("[" ++ s ++ "]", rest2)
        | .error e => .error e
      | .error e => .error e
    | .Option inner =>
      match readOption p buf with
      | .ok (present, rest) =>
        if present then
          wrapErr (.CompositeDeserializeError "Option")
            (de_go p opts tm fuel (.ty inner) rest)
        else .ok ("null", rest)
      | .error e => .error e
    | .COption inner =>
      match readCOption p inner buf with
      | .ok (present, rest) =>
        if present then
          wrapErr (.CompositeDeserializeError "Option")
            (de_go p opts tm fuel (.ty inner) rest)
        else .ok ("null", rest)
      | .error e => .error e
    | .Bytes =>
      emit (fun bs => "[" ++ String.intercalate ", " (bs.map toString) ++ "]")
        (readBytesVec buf)
    | .PublicKey =>
      emit (fun k =>
          if opts.pubkey_as_base58 then write_quoted (base58Encode k)
          else renderByteArray k)
        (readPubkey p buf)
    | .Defined name =>
      match lookupTm name tm with
      | some d =>
        wrapErr (.CompositeDeserializeError ("Defined('" ++ name ++ "')"))
          (de_go p opts tm fuel (.tdefDe name d) buf)
      | none => .error (.CannotFindDefinedType name)
  | fuel + 1, .arrLoop inner i len, buf =>
    if i < len then
      match wrapErr
          (.CompositeDeserializeError ("Array[" ++ toString i ++ "] size(" ++ toString len ++ ")"))
          (de_go p opts tm fuel (.ty inner) buf) with
      | .ok (s, rest) =>
        match de_go p opts tm fuel (.arrLoop inner (i + 1) len) rest with
        | .ok (s2, rest2) => .ok (s ++ (if i < len - 1 then ", " else "") ++ s2, rest2)
        | .error e => .error e
      | .error e => .error e
    else .ok ("", buf)
  | fuel + 1, .vecLoop inner i len, buf =>
    if i < len then
      match wrapErr
          (.CompositeDeserializeError ("Vec[" ++ toString i ++ "] size(" ++ toString len ++ ")"))
          (de_go p opts tm fuel (.ty inner) buf) with
      | .ok (s, rest) =>
        match de_go p opts tm fuel (.vecLoop inner (i + 1) len) rest with
        | .ok (s2, rest2) => .ok (s ++ (if i < len - 1 then ", " else "") ++ s2, rest2)
        | .error e => .error e
      | .error e => .error e
    else .ok ("", buf)
  | fuel + 1, .setLoop inner i len, buf =>
    if i < len then
      match wrapErr
          (.CompositeDeserializeError ("HashSet[" ++ toString i ++ "] size(" ++ toString len ++ ")"))
          (de_go p opts tm fuel (.ty inner) buf) with
      | .ok (s, rest) =>
        match de_go p opts tm fuel (.setLoop inner (i + 1) len) rest with
        | .ok (s2, rest2) => .ok (s ++ (if i < len - 1 then ", " else "") ++ s2, rest2)
        | .error e => .error e
      | .error e => .error e
    else .ok ("", buf)
  | fuel + 1, .mapLoop k v i len, buf =>
    if i < len then
      match wrapErr
          (.CompositeDeserializeError ("Key HashMap[" ++ toString i ++ "] size(" ++ toString len ++ ")"))
          (de_go p opts tm fuel (.ty k) buf) with
      | .ok (ks, rest) =>
        match wrapErr
            (.CompositeDeserializeError ("Val HashMap[" ++ toString i ++ "] size(" ++ toString len ++ ")"))
            (de_go p opts tm fuel (.ty v) rest) with
        | .ok (vs, rest2) =>
          match de_go p opts tm fuel (.mapLoop k v (i + 1) len) rest2 with
          | .ok (s2, rest3) =>
            .ok ("\"" ++ ks ++ "\": " ++ vs ++ (if i < len - 1 then ", " else "") ++ s2, rest3)
          | .error e => .error e
        | .error e => .error e
      | .error e => .error e
    else .ok ("", buf)
  | fuel + 1, .tupLoop ts, buf =>
    match ts with
    | [] => .ok ("", buf)
    | t :: rest =>
      match de_go p opts tm fuel (.ty t) buf with
      | .ok (s, rbuf) =>
        match de_go p opts tm fuel (.tupLoop rest) rbuf with
        | .ok (s2, rbuf2) => .ok (s ++ (if rest.isEmpty then "" else ", ") ++ s2, rbuf2)
        | .error e => .error e
      | .error e => .error e
  | fuel + 1, .tdefDe name d, buf =>
    match d with
    | .Struct fields =>
      wrapErr (.StructDeserializeError name)
        (de_go p opts tm fuel (.fieldsObj fields) buf)
    | .Enum variants =>
      match buf with
      | [] => .error .BorshIoError
      | disc :: rest =>
        match variants.get? disc with
        | some v =>
          wrapErr (.EnumDeserializeError name)
            (de_go p opts tm fuel (.variantDe v) rest)
        | none => .error (.InvalidEnumVariantDiscriminator disc)
  | fuel + 1, .fieldsObj fs, buf =>
    match de_go p opts tm fuel (.fieldsLoop fs) buf with
    | .ok (s, rest) => .ok ("\x7b" ++ s ++ "\x7d", rest)
    | .error e => .error e
  | _ + 1, .fieldsLoop [], buf => .ok ("", buf)
  | fuel + 1, .fieldsLoop (f :: rest), buf =>
    match wrapErr (.FieldDeserializeError f.name)
        (de_go p opts tm fuel (.ty f.ty) buf) with
    | .ok (s, rbuf) =>
      match de_go p opts tm fuel (.fieldsLoop rest) rbuf with
      | .ok (s2, rbuf2) =>
        .ok ("\"" ++ f.name ++ "\":" ++ s ++ (if rest.isEmpty then "" else ",") ++ s2, rbuf2)
      | .error e => .error e
    | .error e => .error e
  | fuel + 1, .variantDe v, buf =>
    match v.fields with
    | some (.Named fs) =>
      match wrapErr (.EnumVariantDeserializeError v.name)
          (de_go p opts tm fuel (.fieldsObj fs) buf) with
      | .ok (s, rest) => .ok ("\x7b" ++ "\"" ++ v.name ++ "\":" ++ s ++ "\x7d", rest)
      | .error e => .error e
    | some (.TupleFields ts) =>
      match wrapErr (.EnumVariantDeserializeError v.name)
          (de_go p opts tm fuel (.ty (.Tuple ts)) buf) with
      | .ok (s, rest) => .ok ("\x7b" ++ "\"" ++ v.name ++ "\":" ++ s ++ "\x7d", rest)
      | .error e => .error e
    | none => .ok (write_quoted v.name, buf)

/-- `JsonIdlTypeDeserializer::deserialize` (src/json/json_idl_type_de.rs). -/
def deserializeType (p : Provider) (opts : JsonSerializationOpts) (tm : TypeMap)
    (fuel : Nat) (t : IdlType) (buf : List Nat) : CPResult (String × List Nat) :=
  de_go p opts tm fuel (.ty t) buf

/-- `JsonIdlTypeDefinitionDeserializer::deserialize` (src/json/json_idl_type_def_de.rs). -/
def deserializeTypeDef (p : Provider) (opts : JsonSerializationOpts) (tm : TypeMap)
    (fuel : Nat) (td : IdlTypeDefinition) (buf : List Nat) : CPResult (String × List Nat) :=
  de_go p opts tm fuel (.tdefDe td.name td.ty) buf

/-! ## Prefix discriminator (src/json/discriminator.rs, Anchor-style) -/

/-- The tag → deserializer `HashMap` lookup of `PrefixDiscriminator`: entries
are inserted in account order, so on (improbable) tag collisions the last
insertion wins. -/
def prefixLookup (accounts : List IdlTypeDefinition) (tag : List Nat) :
    Option IdlTypeDefinition :=
  (accounts.reverse).find? (fun acc => account_discriminator acc.name == tag)

/-- `PrefixDiscriminator::deserialize_account_data`: require 8 bytes, look up
the leading 8-byte tag, feed bytes `8..` to the selected account's
type-definition deserializer. -/
def prefixDeserializeAccountData (p : Provider) (opts : JsonSerializationOpts)
    (tm : TypeMap) (fuel : Nat) (accounts : List IdlTypeDefinition)
    (data : List Nat) : CPResult (String × List Nat) :=
  if data.length < 8 then
    .error (.AccountDataTooShortForDiscriminatorBytes data.length 8)
  else
    match prefixLookup accounts (data.take 8) with
    | some acc => de_go p opts tm fuel (.tdefDe acc.name acc.ty) (data.drop 8)
    | none => .error (.UnknownDiscriminatedAccount (data.take 8))

/-! ## Structural (match) discriminator (src/discriminator/match_discriminator.rs) -/

inductive Matcher where
  | COption (offset innerSize : Nat)
  | Bool (offset : Nat)
deriving Repr, DecidableEq

/-- `Matcher::try_from((&IdlType, &type_map, offset))`: a `COption` field
yields a COption matcher (inner size from the oracle, `unwrap_or(0)`), a
`Bool` field yields a bool matcher, anything else yields no matcher. -/
def matcher_try_from (fuel : Nat) (ty : IdlType) (tm : TypeMap) (offset : Nat) :
    Option Matcher :=
  match ty with
  | .COption inner =>
    some (.COption offset ((idl_type_bytes fuel inner (some tm)).getD 0))
  | .Bool => some (.Bool offset)
  | _ => none

/-- `Matcher::matches`: fixed-width reads via `array_ref!`; `none` models the
Rust panic when the slice `[offset, offset+width)` is out of bounds. -/
def matcher_matches : Matcher → List Nat → Option Bool
  | .COption offset _, buf =>
    if offset + 4 ≤ buf.length then
      let src := (buf.drop offset).take 4
      some (src == [1, 0, 0, 0] || src == [0, 0, 0, 0])
    else none
  | .Bool offset, buf =>
    if offset + 1 ≤ buf.length then
      some (buf.getD offset 0 == 0 || buf.getD offset 0 == 1)
    else none

/-- Offsets and sizes accumulation of `base_account_sizes`: a field whose size
the oracle knows records the running offset and its size and advances the
offset; an unknown-size field records nothing and leaves the offset alone. -/
def base_sizes_go (fuel : Nat) (tm : TypeMap) : List IdlField → Nat → (List Nat × List Nat)
  | [], _ => ([], [])
  | f :: rest, offset =>
    match idl_type_bytes fuel f.ty (some tm) with
    | some size =>
      let p := base_sizes_go fuel tm rest (offset + size)
      (size :: p.1, offset :: p.2)
    | none => base_sizes_go fuel tm rest offset

/-- `base_account_sizes`: `(sizes, offsets)` for struct accounts, `None`
otherwise (accounts should always be structs). -/
def base_account_sizes (fuel : Nat) (account : IdlTypeDefinition) (tm : TypeMap) :
    Option (List Nat × List Nat) :=
  match account.ty with
  | .Struct fields => some (base_sizes_go fuel tm fields 0)
  | _ => none

/-- `account_matchers`: zip the full field list with the collected offsets
(`fields.iter().zip(offsets)`, truncating at the shorter) and keep the fields
that convert to a matcher. -/
def account_matchers (fuel : Nat) (account : IdlTypeDefinition) (tm : TypeMap)
    (offsets : List Nat) : List Matcher :=
  match account.ty with
  | .Struct fields =>
    (fields.zip offsets).filterMap (fun fo => matcher_try_from fuel fo.1.ty tm fo.2)
  | _ => []

structure MatchDiscriminator where
  account : IdlTypeDefinition
  min_total_size : Nat
  matchers : List Matcher

/-- `MatchDiscriminator::new`: `min_total_size` is the sum of the known field
sizes; an account producing zero matchers is excluded. -/
def MatchDiscriminator.new (fuel : Nat) (account : IdlTypeDefinition) (tm : TypeMap) :
    Option MatchDiscriminator :=
  match base_account_sizes fuel account tm with
  | some sp =>
    let min_total_size := sp.1.sum
    let matchers := account_matchers fuel account tm sp.2
    if matchers.isEmpty then none
    else some ⟨account, min_total_size, matchers⟩
  | none => none

/-- Stable insertion keeping ascending `min_total_size` (equal keys keep
insertion order); `foldl` over this models `Vec::sort_by_key`, Rust's stable
ascending sort. -/
def insertByMin (d : MatchDiscriminator) : List MatchDiscriminator → List MatchDiscriminator
  | [] => [d]
  | x :: rest =>
    if x.min_total_size ≤ d.min_total_size then x :: insertByMin d rest
    else d :: x :: rest

/-- `MatchDiscriminators::from((accounts, type_map))`. -/
def match_discriminators_from (fuel : Nat) (accounts : List IdlTypeDefinition)
    (tm : TypeMap) : List MatchDiscriminator :=
  (accounts.filterMap (fun acc => MatchDiscriminator.new fuel acc tm)).foldl
    (fun acc d => insertByMin d acc) []

/-- `matchers.iter().all(...)` with short-circuiting; `none` models a matcher
panic. -/
def allMatch : List Matcher → List Nat → Option Bool
  | [], _ => some true
  | m :: rest, buf =>
    match matcher_matches m buf with
    | none => none
    | some false => some false
    | some true => allMatch rest buf

/-- `MatchDiscriminator::matches_account`. -/
def matchesAccount (d : MatchDiscriminator) (buf : List Nat) : Option Bool :=
  if buf.length < d.min_total_size then some false
  else allMatch d.matchers buf

/-- The candidate fold of `find_matching_disc`: pick the candidate with
strictly more matchers than the current best (first-seen wins ties). -/
def bestCandidate : List MatchDiscriminator → Option MatchDiscriminator → Option MatchDiscriminator
  | [], best => best
  | c :: rest, best =>
    match best with
    | some b =>
      if b.matchers.length < c.matchers.length then bestCandidate rest (some c)
      else bestCandidate rest (some b)
    | none => bestCandidate rest (some c)

def findGo : List MatchDiscriminator → List Nat → List MatchDiscriminator →
    Option (Option MatchDiscriminator)
  | [], _, cands => some (bestCandidate cands none)
  | d :: rest, buf, cands =>
    match matchesAccount d buf with
    | none => none
    | some true =>
      if d.min_total_size = buf.length then some (some d)
      else findGo rest buf (cands ++ [d])
    | some false => findGo rest buf cands

/-- `MatchDiscriminators::find_matching_disc`: outer `none` models a matcher
panic, inner `none` means no discriminator matched. -/
def find_matching_disc (discs : List MatchDiscriminator) (buf : List Nat) :
    Option (Option MatchDiscriminator) :=
  findGo discs buf []

/-- The name → deserializer lookup of the JSON-level `MatchDiscriminator`
(`deserializer_by_name`, last insertion wins on duplicate names). -/
def byNameLookup (discs : List MatchDiscriminator) (name : String) :
    Option MatchDiscriminator :=
  (discs.reverse).find? (fun d => d.account.name == name)

/-- `MatchDiscriminator::deserialize_account_data` (src/json/discriminator.rs):
empty data is rejected up front, then the matching account's type-definition
deserializer receives the full blob (no stripping). -/
def matchDeserializeAccountData (p : Provider) (opts : JsonSerializationOpts)
    (tm : TypeMap) (fuel : Nat) (discs : List MatchDiscriminator)
    (data : List Nat) : CPResult (String × List Nat) :=
  if data.isEmpty then .error (.AccountDataTooShortForDiscriminatorBytes 0 1)
  else
    match find_matching_disc discs data with
    | none => .error .PanicOutOfBounds
    | some none => .error .CannotFindDeserializerForAccount
    | some (some d) =>
      match byNameLookup discs d.account.name with
      | some d2 => de_go p opts tm fuel (.tdefDe d2.account.name d2.account.ty) data
      | none => .error (.UnknownAccount d.account.name)

/-! ## IDL container codec (src/idl/encoder/{idl_encoder,idl_decoder}.rs)

The JSON serialization of an IDL (`serde_json`) and the zlib compression
(`flate2`) are external collaborators, passed in as parameters `toJsonBytes`,
`parseIdl`, `deflate` and `inflate`; the container layout around them is the
code's own. -/

def IDL_HEADER_SIZE : Nat := 44

/-- The fixed 8-byte discriminator of an Anchor IDL account. -/
def IDL_DISCRIMINATOR : List Nat := [0x18, 0x46, 0x62, 0xbf, 0x3a, 0x90, 0x7b, 0x9e]

/-- `(json.len() as u32).to_le_bytes()`. -/
def u32le (n : Nat) : List Nat :=
  [n % 256, (n >>> 8) % 256, (n >>> 16) % 256, (n >>> 24) % 256]

/-- `encode_idl_account`: discriminator ++ authority pubkey ++ LE length of
the uncompressed JSON ++ compressed JSON. -/
def encode_idl_account {α : Type} (toJsonBytes : α → List Nat)
    (deflate : List Nat → List Nat) (program_id : List Nat) (idl : α) : List Nat :=
  IDL_DISCRIMINATOR ++ program_id ++ u32le (toJsonBytes idl).length ++
    deflate (toJsonBytes idl)

/-- `decode_idl_account_data`: strip the 44 header bytes, inflate the tail,
parse the JSON. -/
def decode_idl_account_data {α : Type} (inflate : List Nat → List Nat)
    (parseIdl : List Nat → Option α) (account_data : List Nat) : Option α :=
  parseIdl (inflate (account_data.drop IDL_HEADER_SIZE))

/-! ## Helper lemmas -/

theorem size_go_array (fuel : Nat) (inner : IdlType) (len : Nat) (tm : Option TypeMap) :
    size_go (fuel + 1) (.ty (.Array inner len)) tm =
      (size_go fuel (.ty inner) tm).map (· * len) := rfl

theorem size_go_coption (fuel : Nat) (inner : IdlType) (tm : Option TypeMap) :
    size_go (fuel + 1) (.ty (.COption inner)) tm =
      (size_go fuel (.ty inner) tm).map (· + 4) := rfl

theorem size_go_defined (fuel : Nat) (s : String) (tm : Option TypeMap) :
    size_go (fuel + 1) (.ty (.Defined s)) tm =
      match tm.bind (lookupTm s) with
      | some d => size_go fuel (.tdef d) tm
      | none => none := rfl

theorem size_go_struct (fuel : Nat) (fields : List IdlField) (tm : Option TypeMap) :
    size_go (fuel + 1) (.tdef (.Struct fields)) tm = size_go fuel (.fields fields) tm := rfl

theorem size_go_enum (fuel : Nat) (variants : List IdlEnumVariant) (tm : Option TypeMap) :
    size_go (fuel + 1) (.tdef (.Enum variants)) tm =
      if variants.all (fun v => v.fields.isNone) then some 1 else none := rfl

theorem size_go_fields_nil (fuel : Nat) (tm : Option TypeMap) :
    size_go (fuel + 1) (.fields []) tm = some 0 := rfl

theorem size_go_fields_cons (fuel : Nat) (f : IdlField) (rest : List IdlField)
    (tm : Option TypeMap) :
    size_go (fuel + 1) (.fields (f :: rest)) tm =
      match size_go fuel (.ty f.ty) tm with
      | some size => (size_go fuel (.fields rest) tm).map (· + size)
      | none => none := rfl

/-- A `some` answer of the size oracle is stable under additional fuel
(fuel exhaustion only ever produces `none`). -/
theorem size_go_mono {fuel : Nat} :
    ∀ {req : SizeReq} {tm : Option TypeMap} {n : Nat},
      size_go fuel req tm = some n → size_go (fuel + 1) req tm = some n := by
  induction fuel with
  | zero => intro req tm n h; simp [size_go] at h
  | succ fuel ih =>
    intro req tm n h
    match req with
    | .ty t =>
      cases t <;> try exact h
      case Array inner len =>
        rw [size_go_array] at h
        rw [size_go_array]
        cases hh : size_go fuel (.ty inner) tm with
        | none => rw [hh] at h; simp at h
        | some m => rw [hh] at h; rw [ih hh]; exact h
      case COption inner =>
        rw [size_go_coption] at h
        rw [size_go_coption]
        cases hh : size_go fuel (.ty inner) tm with
        | none => rw [hh] at h; simp at h
        | some m => rw [hh] at h; rw [ih hh]; exact h
      case Defined s =>
        rw [size_go_defined] at h
        rw [size_go_defined]
        cases hl : tm.bind (lookupTm s) with
        | none => rw [hl] at h; exact absurd h (by simp)
        | some d => rw [hl] at h; exact ih h
    | .tdef d =>
      cases d with
      | Struct fields =>
        rw [size_go_struct] at h; rw [size_go_struct]; exact ih h
      | Enum variants => rw [size_go_enum] at h; rw [size_go_enum]; exact h
    | .fields fs =>
      cases fs with
      | nil => rw [size_go_fields_nil] at h; rw [size_go_fields_nil]; exact h
      | cons f rest =>
        rw [size_go_fields_cons] at h; rw [size_go_fields_cons]
        cases hh : size_go fuel (.ty f.ty) tm with
        | none => rw [hh] at h; simp at h
        | some s =>
          rw [hh] at h; rw [ih hh]
          cases hr : size_go fuel (.fields rest) tm with
          | none => rw [hr] at h; simp at h
          | some r => rw [hr] at h; rw [ih hr]; exact h

theorem size_go_mono_le {fuel fuel' : Nat} (hle : fuel ≤ fuel') :
    ∀ {req : SizeReq} {tm : Option TypeMap} {n : Nat},
      size_go fuel req tm = some n → size_go fuel' req tm = some n := by
  induction hle with
  | refl => intro _ _ _ h; exact h
  | step _ ih => intro req tm n h; exact size_go_mono (ih h)

/-- When every field size is known (witnessed by `mapM` at fuel `fuel`), the
struct loop of the oracle returns their sum, given the extra fuel the loop
itself consumes. -/
theorem size_go_fields_sum :
    ∀ (fields : List IdlField) (tm : Option TypeMap) (fuel : Nat) (sizes : List Nat),
      fields.mapM (fun f => size_go fuel (.ty f.ty) tm) = some sizes →
      size_go (fuel + fields.length + 1) (.fields fields) tm = some sizes.sum := by
  intro fields
  induction fields with
  | nil =>
    intro tm fuel sizes h
    have hs : sizes = [] := by
      rw [List.mapM_nil] at h
      exact (Option.some.inj h).symm
    subst hs
    simp [size_go_fields_nil]
  | cons f rest ih =>
    intro tm fuel sizes h
    rw [List.mapM_cons] at h
    cases hh : size_go fuel (.ty f.ty) tm with
    | none => rw [hh] at h; simp at h
    | some s =>
      rw [hh] at h
      cases hr : rest.mapM (fun f => size_go fuel (.ty f.ty) tm) with
      | none => rw [hr] at h; simp at h
      | some sizes' =>
        rw [hr] at h
        simp at h
        subst h
        have hlen : fuel + (f :: rest).length + 1 = (fuel + rest.length + 1) + 1 := by
          simp [List.length_cons]; omega
        rw [hlen, size_go_fields_cons]
        rw [size_go_mono_le (by omega) hh]
        rw [ih tm fuel sizes' hr]
        simp [Nat.add_comm]

/-- A field whose size the oracle never knows (at any fuel) makes the whole
struct size unknown. -/
theorem size_go_fields_none :
    ∀ (fields : List IdlField) (tm : Option TypeMap) (fuel : Nat) (f : IdlField),
      f ∈ fields → (∀ g, size_go g (.ty f.ty) tm = none) →
      size_go fuel (.fields fields) tm = none := by
  intro fields
  induction fields with
  | nil => intro tm fuel f hmem; exact absurd hmem (List.not_mem_nil f)
  | cons g rest ih =>
    intro tm fuel f hmem hnone
    cases fuel with
    | zero => rfl
    | succ fuel =>
      rw [size_go_fields_cons]
      rcases List.mem_cons.mp hmem with heq | hmem'
      · subst heq
        rw [hnone fuel]
      · cases hh : size_go fuel (.ty g.ty) tm with
        | none => rfl
        | some s => rw [ih tm fuel f hmem' hnone]; rfl

/-! ## Claim theorems -/

/-- C5: For every IDL type and type map, the size oracle returns the natural
width for integer, float and bool primitives; 32 for `PublicKey`;
`N * size_of(inner)` for `Array(inner, N)`; `4 + size_of(inner)` for
`COption(inner)`; for `Defined(name)` the size obtained by resolving the name
in the registry and recursing; the sum of the field sizes for a struct (and
`none` when some field's size is unknown at every recursion depth); 1 for an
enum exactly when every variant carries no payload, `none` otherwise; and
`none` for `Option`, `Vec`, `String`, `Bytes`, map and set types.  Fuel
indices step by one where the Rust code recurses. -/
theorem C5_type_size_oracle :
    (∀ fuel tm,
      idl_type_bytes (fuel + 1) .U8 tm = some 1 ∧
      idl_type_bytes (fuel + 1) .U16 tm = some 2 ∧
      idl_type_bytes (fuel + 1) .U32 tm = some 4 ∧
      idl_type_bytes (fuel + 1) .U64 tm = some 8 ∧
      idl_type_bytes (fuel + 1) .U128 tm = some 16 ∧
      idl_type_bytes (fuel + 1) .I8 tm = some 1 ∧
      idl_type_bytes (fuel + 1) .I16 tm = some 2 ∧
      idl_type_bytes (fuel + 1) .I32 tm = some 4 ∧
      idl_type_bytes (fuel + 1) .I64 tm = some 8 ∧
      idl_type_bytes (fuel + 1) .I128 tm = some 16 ∧
      idl_type_bytes (fuel + 1) .F32 tm = some 4 ∧
      idl_type_bytes (fuel + 1) .F64 tm = some 8 ∧
      idl_type_bytes (fuel + 1) .Bool tm = some 1 ∧
      idl_type_bytes (fuel + 1) .PublicKey tm = some 32) ∧
    (∀ fuel inner len tm,
      idl_type_bytes (fuel + 1) (.Array inner len) tm =
        (idl_type_bytes fuel inner tm).map (· * len)) ∧
    (∀ fuel inner tm,
      idl_type_bytes (fuel + 1) (.COption inner) tm =
        (idl_type_bytes fuel inner tm).map (· + 4)) ∧
    (∀ fuel s m,
      idl_type_bytes (fuel + 1) (.Defined s) (some m) =
        match lookupTm s m with
        | some d => idl_def_bytes fuel d (some m)
        | none => none) ∧
    (∀ fuel (fields : List IdlField) tm sizes,
      fields.mapM (fun f => idl_type_bytes fuel f.ty tm) = some sizes →
      idl_def_bytes (fuel + fields.length + 2) (.Struct fields) tm = some sizes.sum) ∧
    (∀ fuel (fields : List IdlField) tm f,
      f ∈ fields → (∀ g, idl_type_bytes g f.ty tm = none) →
      idl_def_bytes fuel (.Struct fields) tm = none) ∧
    (∀ fuel variants tm,
      idl_def_bytes (fuel + 1) (.Enum variants) tm =
        if variants.all (fun v => v.fields.isNone) then some 1 else none) ∧
    (∀ fuel inner tm, idl_type_bytes fuel (.Option inner) tm = none) ∧
    (∀ fuel inner tm, idl_type_bytes fuel (.Vec inner) tm = none) ∧
    (∀ fuel tm, idl_type_bytes fuel .Str tm = none) ∧
    (∀ fuel tm, idl_type_bytes fuel .Bytes tm = none) ∧
    (∀ fuel k v tm,
      idl_type_bytes fuel (.HashMap k v) tm = none ∧
      idl_type_bytes fuel (.BTreeMap k v) tm = none) ∧
    (∀ fuel t tm,
      idl_type_bytes fuel (.HashSet t) tm = none ∧
      idl_type_bytes fuel (.BTreeSet t) tm = none) := by
  refine ⟨?_, ?_, ?_, ?_, ?_, ?_, ?_, ?_, ?_, ?_, ?_, ?_, ?_⟩
  · intro fuel tm
    exact ⟨rfl, rfl, rfl, rfl, rfl, rfl, rfl, rfl, rfl, rfl, rfl, rfl, rfl, rfl⟩
  · intro fuel inner len tm; exact size_go_array fuel inner len tm
  · intro fuel inner tm; exact size_go_coption fuel inner tm
  · intro fuel s m; exact size_go_defined fuel s (some m)
  · intro fuel fields tm sizes h
    have hs := size_go_fields_sum fields tm fuel sizes h
    show size_go (fuel + fields.length + 2) (.tdef (.Struct fields)) tm = some sizes.sum
    rw [show fuel + fields.length + 2 = (fuel + fields.length + 1) + 1 from rfl, size_go_struct]
    exact hs
  · intro fuel fields tm f hmem hnone
    cases fuel with
    | zero => rfl
    | succ fuel =>
      show size_go (fuel + 1) (.tdef (.Struct fields)) tm = none
      rw [size_go_struct]
      exact size_go_fields_none fields tm fuel f hmem hnone
  · intro fuel variants tm; exact size_go_enum fuel variants tm
  · intro fuel inner tm; cases fuel <;> rfl
  · intro fuel inner tm; cases fuel <;> rfl
  · intro fuel tm; cases fuel <;> rfl
  · intro fuel tm; cases fuel <;> rfl
  · intro fuel k v tm; exact ⟨by cases fuel <;> rfl, by cases fuel <;> rfl⟩
  · intro fuel t tm; exact ⟨by cases fuel <;> rfl, by cases fuel <;> rfl⟩

/-- Witness for C5: the hypothesis-bearing struct conjuncts applied at
concrete inputs: a struct `{ a: u32, b: bool }` sums to 5; a struct containing
a `Vec<u8>` field has unknown size. -/
theorem C5_type_size_oracle_witness :
    idl_def_bytes 5 (.Struct [⟨"a", .U32⟩, ⟨"b", .Bool⟩]) none = some 5 ∧
    idl_def_bytes 9 (.Struct [⟨"a", .U32⟩, ⟨"v", .Vec .U8⟩]) none = none := by
  constructor
  · have h := C5_type_size_oracle.2.2.2.2.1 1 [⟨"a", .U32⟩, ⟨"b", .Bool⟩] none [4, 1] rfl
    exact h
  · exact C5_type_size_oracle.2.2.2.2.2.1 9 [⟨"a", .U32⟩, ⟨"v", .Vec .U8⟩] none ⟨"v", .Vec .U8⟩
      (by simp) (fun g => by cases g <;> rfl)

/-- C1: Under the prefix (Anchor-style) strategy, each account's 8-byte tag is
the first 8 bytes of SHA-256 of `"account:" ++ name` with the name exactly as
cased in the IDL; a blob shorter than 8 bytes fails with the blob-too-short
error; a blob whose leading 8 bytes match no registered tag fails with
`UnknownDiscriminatedAccount`; on a tag match exactly the bytes from offset 8
to the end are passed to the selected account's type-definition deserializer;
and the tag for `"VaultInfo"` is `[133,250,161,78,246,27,55,187]`. -/
theorem C1_prefix_discriminator :
    (∀ name, account_discriminator name =
      (sha256 (strBytes ("account:" ++ name))).take 8) ∧
    (∀ p opts tm fuel accounts (data : List Nat), data.length < 8 →
      prefixDeserializeAccountData p opts tm fuel accounts data =
        .error (.AccountDataTooShortForDiscriminatorBytes data.length 8)) ∧
    (∀ p opts tm fuel accounts (data : List Nat), 8 ≤ data.length →
      (∀ acc ∈ accounts, account_discriminator acc.name ≠ data.take 8) →
      prefixDeserializeAccountData p opts tm fuel accounts data =
        .error (.UnknownDiscriminatedAccount (data.take 8))) ∧
    (∀ p opts tm fuel accounts (data : List Nat) acc, 8 ≤ data.length →
      prefixLookup accounts (data.take 8) = some acc →
      prefixDeserializeAccountData p opts tm fuel accounts data =
        deserializeTypeDef p opts tm fuel acc (data.drop 8)) ∧
    account_discriminator "VaultInfo" = [133, 250, 161, 78, 246, 27, 55, 187] := by
  refine ⟨fun _ => rfl, ?_, ?_, ?_, by decide⟩
  · intro p opts tm fuel accounts data hlt
    unfold prefixDeserializeAccountData
    rw [if_pos hlt]
  · intro p opts tm fuel accounts data hge hall
    unfold prefixDeserializeAccountData
    rw [if_neg (by omega)]
    have hnone : prefixLookup accounts (data.take 8) = none := by
      unfold prefixLookup
      rw [List.find?_eq_none]
      intro acc hacc
      have hm : acc ∈ accounts := List.mem_reverse.mp hacc
      simpa using hall acc hm
    rw [hnone]
  · intro p opts tm fuel accounts data acc hge hfind
    unfold prefixDeserializeAccountData
    rw [if_neg (by omega), hfind]
    rfl

/-- Witness for C1: the three classification behaviors at concrete inputs,
with the single registered account `VaultInfo`. -/
theorem C1_prefix_discriminator_witness :
    prefixDeserializeAccountData .borsh defaultOpts [] 3
        [⟨"VaultInfo", .Struct [⟨"x", .U8⟩]⟩] [1, 2, 3] =
      .error (.AccountDataTooShortForDiscriminatorBytes 3 8) ∧
    prefixDeserializeAccountData .borsh defaultOpts [] 3
        [⟨"VaultInfo", .Struct [⟨"x", .U8⟩]⟩] [0, 0, 0, 0, 0, 0, 0, 0, 7] =
      .error (.UnknownDiscriminatedAccount [0, 0, 0, 0, 0, 0, 0, 0]) ∧
    prefixDeserializeAccountData .borsh defaultOpts [] 3
        [⟨"VaultInfo", .Struct [⟨"x", .U8⟩]⟩]
        ([133, 250, 161, 78, 246, 27, 55, 187] ++ [7]) =
      deserializeTypeDef .borsh defaultOpts [] 3 ⟨"VaultInfo", .Struct [⟨"x", .U8⟩]⟩ [7] := by
  refine ⟨?_, ?_, ?_⟩
  · exact C1_prefix_discriminator.2.1 .borsh defaultOpts [] 3
      [⟨"VaultInfo", .Struct [⟨"x", .U8⟩]⟩] [1, 2, 3] (by decide)
  · exact C1_prefix_discriminator.2.2.1 .borsh defaultOpts [] 3
      [⟨"VaultInfo", .Struct [⟨"x", .U8⟩]⟩] [0, 0, 0, 0, 0, 0, 0, 0, 7] (by decide)
      (by intro acc hacc
          have : acc = ⟨"VaultInfo", .Struct [⟨"x", .U8⟩]⟩ := by simpa using hacc
          subst this
          decide)
  · exact C1_prefix_discriminator.2.2.2.1 .borsh defaultOpts [] 3
      [⟨"VaultInfo", .Struct [⟨"x", .U8⟩]⟩]
      ([133, 250, 161, 78, 246, 27, 55, 187] ++ [7])
      ⟨"VaultInfo", .Struct [⟨"x", .U8⟩]⟩ (by decide) (by rfl)

/-- C7 counterexample: the claim says the derived tag hashes the instruction
name verbatim; the code (`anchor_sighash`) snake-cases the name first, so for
the camel-cased name `houseInitialize` (pinned by the repository's own
`discriminator_for_house_initialize` test) the derived tag is not the hash of
the verbatim name. -/
theorem C7_counterexample :
    ¬ (discriminator_from_ix ⟨"houseInitialize", none⟩ =
      (sha256 (strBytes ("global:" ++ "houseInitialize"))).take 8) := by
  decide

/-- C7 (amended): the derived instruction tag is the explicit
`discriminant.bytes` when supplied, else the single byte `discriminant.value`
when a discriminant is supplied without bytes, else the first 8 bytes of
SHA-256 of `"global:"` concatenated with the snake-cased instruction name; the
tags for `global:delegate` and `global:increment` are as claimed. -/
theorem C7_instruction_discriminator :
    (∀ (name : String) (v : Nat) (b : List Nat),
      discriminator_from_ix ⟨name, some ⟨v, some b⟩⟩ = b) ∧
    (∀ (name : String) (v : Nat),
      discriminator_from_ix ⟨name, some ⟨v, none⟩⟩ = [v]) ∧
    (∀ (name : String),
      discriminator_from_ix ⟨name, none⟩ =
        (sha256 (strBytes ("global:" ++ toSnakeCase name))).take 8) ∧
    discriminator_from_ix ⟨"delegate", none⟩ = [90, 147, 75, 178, 85, 88, 4, 137] ∧
    discriminator_from_ix ⟨"increment", none⟩ = [11, 18, 104, 9, 104, 174, 59, 33] := by
  exact ⟨fun _ _ _ => rfl, fun _ _ => rfl, fun _ => rfl, by decide, by decide⟩

-- Bridging the bit masks on a byte to division/remainder form.
set_option maxRecDepth 4000 in
theorem byte_and_f0 : ∀ b < 256, ((b &&& 240 = 240) ↔ (b / 16 = 15)) := by decide

set_option maxRecDepth 4000 in
theorem byte_and_7f : ∀ b < 256, ((b &&& 127 = 127) ↔ (b % 128 = 127)) := by decide

/-- The f64 exponent field is all ones exactly when byte 6 has its high 4 bits
set and byte 7 its low 7 bits set. -/
theorem f64_exponent_iff {b6 b7 bits lo : Nat} (h6 : b6 < 256) (h7 : b7 < 256)
    (hlo : lo < 281474976710656)
    (hbits : bits = lo + 281474976710656 * b6 + 72057594037927936 * b7) :
    ((bits / 4503599627370496) % 2048 = 2047) ↔ (b6 / 16 = 15 ∧ b7 % 128 = 127) := by
  omega

/-- C6: For every buffer of at least 4 bytes whose byte 3 has its low 7 bits
set, the f32 reader consumes exactly 4 bytes and returns NaN; otherwise it
delegates to the standard little-endian decode.  For every byte buffer of at
least 8 bytes the f64 reader consumes exactly 8 bytes, returning NaN exactly
when byte 6 has its high 4 bits set and byte 7 its low 7 bits set, otherwise
delegating to the standard decode. -/
theorem C6_nan_floats :
    (∀ buf : List Nat, 4 ≤ buf.length →
      (buf.getD 3 0) &&& LOWER7_BITS_MASK = LOWER7_BITS_MASK →
      deserialize_f32 buf = .ok (.nan, buf.drop 4)) ∧
    (∀ buf : List Nat, 4 ≤ buf.length →
      ¬ ((buf.getD 3 0) &&& LOWER7_BITS_MASK = LOWER7_BITS_MASK) →
      deserialize_f32 buf = borshF32std buf) ∧
    (∀ buf : List Nat, 8 ≤ buf.length →
      ((buf.getD 6 0) &&& UPPER4_BITS_MASK = UPPER4_BITS_MASK ∧
       (buf.getD 7 0) &&& LOWER7_BITS_MASK = LOWER7_BITS_MASK) →
      deserialize_f64 buf = .ok (.nan, buf.drop 8)) ∧
    (∀ buf : List Nat, 8 ≤ buf.length →
      ¬ ((buf.getD 6 0) &&& UPPER4_BITS_MASK = UPPER4_BITS_MASK ∧
         (buf.getD 7 0) &&& LOWER7_BITS_MASK = LOWER7_BITS_MASK) →
      deserialize_f64 buf = borshF64std buf) ∧
    (∀ buf : List Nat, 8 ≤ buf.length → (∀ b ∈ buf, b < 256) →
      ∃ v rest, deserialize_f64 buf = .ok (v, rest) ∧ rest = buf.drop 8 ∧
        (v = .nan ↔
          ((buf.getD 6 0) &&& UPPER4_BITS_MASK = UPPER4_BITS_MASK ∧
           (buf.getD 7 0) &&& LOWER7_BITS_MASK = LOWER7_BITS_MASK))) := by
  have hf32nan : ∀ buf : List Nat, 4 ≤ buf.length →
      (buf.getD 3 0) &&& LOWER7_BITS_MASK = LOWER7_BITS_MASK →
      deserialize_f32 buf = .ok (.nan, buf.drop 4) := by
    intro buf hlen hmask
    unfold deserialize_f32
    rw [if_pos hlen, if_pos hmask]
  have hf32del : ∀ buf : List Nat, 4 ≤ buf.length →
      ¬ ((buf.getD 3 0) &&& LOWER7_BITS_MASK = LOWER7_BITS_MASK) →
      deserialize_f32 buf = borshF32std buf := by
    intro buf hlen hmask
    unfold deserialize_f32
    rw [if_pos hlen, if_neg hmask]
  have hf64nan : ∀ buf : List Nat, 8 ≤ buf.length →
      ((buf.getD 6 0) &&& UPPER4_BITS_MASK = UPPER4_BITS_MASK ∧
       (buf.getD 7 0) &&& LOWER7_BITS_MASK = LOWER7_BITS_MASK) →
      deserialize_f64 buf = .ok (.nan, buf.drop 8) := by
    intro buf hlen hmask
    unfold deserialize_f64
    rw [if_pos hlen, if_pos hmask]
  have hf64del : ∀ buf : List Nat, 8 ≤ buf.length →
      ¬ ((buf.getD 6 0) &&& UPPER4_BITS_MASK = UPPER4_BITS_MASK ∧
         (buf.getD 7 0) &&& LOWER7_BITS_MASK = LOWER7_BITS_MASK) →
      deserialize_f64 buf = borshF64std buf := by
    intro buf hlen hmask
    unfold deserialize_f64
    rw [if_pos hlen, if_neg hmask]
  refine ⟨hf32nan, hf32del, hf64nan, hf64del, ?_⟩
  intro buf hlen hbnd
  by_cases hmask : ((buf.getD 6 0) &&& UPPER4_BITS_MASK = UPPER4_BITS_MASK ∧
      (buf.getD 7 0) &&& LOWER7_BITS_MASK = LOWER7_BITS_MASK)
  · exact ⟨.nan, buf.drop 8, hf64nan buf hlen hmask, rfl, iff_of_true rfl hmask⟩
  · match buf, hlen with
    | b0 :: b1 :: b2 :: b3 :: b4 :: b5 :: b6 :: b7 :: rest, _ =>
      have h6 : b6 < 256 := hbnd b6 (by simp)
      have h7 : b7 < 256 := hbnd b7 (by simp)
      have h0 : b0 < 256 := hbnd b0 (by simp)
      have h1 : b1 < 256 := hbnd b1 (by simp)
      have h2 : b2 < 256 := hbnd b2 (by simp)
      have h3 : b3 < 256 := hbnd b3 (by simp)
      have h4 : b4 < 256 := hbnd b4 (by simp)
      have h5 : b5 < 256 := hbnd b5 (by simp)
      set buf := b0 :: b1 :: b2 :: b3 :: b4 :: b5 :: b6 :: b7 :: rest with hbuf
      have hg6 : buf.getD 6 0 = b6 := rfl
      have hg7 : buf.getD 7 0 = b7 := rfl
      have hbits : leNat (buf.take 8) =
          (b0 + 256 * b1 + 65536 * b2 + 16777216 * b3 +
           4294967296 * b4 + 1099511627776 * b5) +
          281474976710656 * b6 + 72057594037927936 * b7 := by
        show leNat [b0, b1, b2, b3, b4, b5, b6, b7] = _
        simp [leNat]
        ring
      have hlo : (b0 + 256 * b1 + 65536 * b2 + 16777216 * b3 +
          4294967296 * b4 + 1099511627776 * b5) < 281474976710656 := by omega
      have hexp : ¬ ((leNat (buf.take 8) / 4503599627370496) % 2048 = 2047) := by
        rw [f64_exponent_iff h6 h7 hlo hbits]
        intro hc
        apply hmask
        rw [hg6, hg7]
        exact ⟨(byte_and_f0 b6 h6).mpr hc.1, (byte_and_7f b7 h7).mpr hc.2⟩
      have hnotnan : f64IsNan (leNat (buf.take 8)) = false := by
        unfold f64IsNan
        rw [decide_eq_false hexp]
        simp
      refine ⟨.val (leNat (buf.take 8)), buf.drop 8, ?_, rfl,
        iff_of_false (by simp) hmask⟩
      rw [hf64del buf (by simp [hbuf]) hmask]
      unfold borshF64std
      rw [if_pos (by simp [hbuf])]
      simp [hnotnan]

/-- Witness for C6: the spec's pinned bit patterns on both sides of the NaN
boundary (§8 scenarios 3 and 4), plus the always-consumes-8 property on a
plain byte buffer. -/
theorem C6_nan_floats_witness :
    deserialize_f32 [79, 103, 129, 255] = .ok (.nan, []) ∧
    deserialize_f32 [79, 103, 129, 254] = borshF32std [79, 103, 129, 254] ∧
    deserialize_f64 [100, 0, 0, 0, 79, 103, 240, 127] = .ok (.nan, []) ∧
    deserialize_f64 [100, 0, 0, 0, 79, 103, 127, 255] =
      borshF64std [100, 0, 0, 0, 79, 103, 127, 255] ∧
    (∃ v rest, deserialize_f64 [1, 2, 3, 4, 5, 6, 7, 8] = .ok (v, rest) ∧
      rest = [] ∧
      (v = .nan ↔
        (([1, 2, 3, 4, 5, 6, 7, 8] : List Nat).getD 6 0 &&& UPPER4_BITS_MASK = UPPER4_BITS_MASK ∧
         ([1, 2, 3, 4, 5, 6, 7, 8] : List Nat).getD 7 0 &&& LOWER7_BITS_MASK = LOWER7_BITS_MASK))) := by
  refine ⟨?_, ?_, ?_, ?_, ?_⟩
  · exact C6_nan_floats.1 [79, 103, 129, 255] (by decide) (by decide)
  · exact C6_nan_floats.2.1 [79, 103, 129, 254] (by decide) (by decide)
  · exact C6_nan_floats.2.2.1 [100, 0, 0, 0, 79, 103, 240, 127] (by decide) (by decide)
  · exact C6_nan_floats.2.2.2.1 [100, 0, 0, 0, 79, 103, 127, 255] (by decide) (by decide)
  · exact C6_nan_floats.2.2.2.2 [1, 2, 3, 4, 5, 6, 7, 8] (by decide) (by decide)

theorem de_go_coption_eq (p : Provider) (opts : JsonSerializationOpts) (tm : TypeMap)
    (fuel : Nat) (inner : IdlType) (buf : List Nat) :
    de_go p opts tm (fuel + 1) (.ty (.COption inner)) buf =
      match readCOption p inner buf with
      | .ok (present, rest) =>
        if present then
          wrapErr (.CompositeDeserializeError "Option")
            (de_go p opts tm fuel (.ty inner) rest)
        else .ok ("null", rest)
      | .error e => .error e := rfl

/-- The oracle with no type map (as `SplDeserializer::coption` calls it) agrees
with its direct structural embedding once the fuel covers the type's depth. -/
theorem idl_type_bytes_none_eq_nomap :
    ∀ (fuel : Nat) (inner : IdlType), typeDepth inner ≤ fuel →
      idl_type_bytes fuel inner none = idl_type_bytes_nomap inner := by
  intro fuel
  induction fuel with
  | zero =>
    intro inner hd
    exfalso
    cases inner <;> simp [typeDepth] at hd
  | succ f ih =>
    intro inner hd
    cases inner <;> try rfl
    case Array inner len =>
      show size_go (f + 1) (.ty (.Array inner len)) none = _
      rw [size_go_array]
      have hdi : typeDepth inner ≤ f := by
        have h : typeDepth (.Array inner len) = typeDepth inner + 1 := rfl
        omega
      rw [show size_go f (.ty inner) none = idl_type_bytes f inner none from rfl, ih inner hdi]
      rfl
    case COption inner =>
      show size_go (f + 1) (.ty (.COption inner)) none = _
      rw [size_go_coption]
      have hdi : typeDepth inner ≤ f := by
        have h : typeDepth (.COption inner) = typeDepth inner + 1 := rfl
        omega
      rw [show size_go f (.ty inner) none = idl_type_bytes f inner none from rfl, ih inner hdi]
      rfl

theorem splCoption_absent {inner : IdlType} {buf : List Nat} {n : Nat}
    (htag : buf.take 4 = [0, 0, 0, 0]) (hsz : idl_type_bytes_nomap inner = some n)
    (hle : n ≤ buf.length - 4) :
    splCoption inner buf = .ok (false, buf.drop (4 + n)) := by
  have hlen : ¬ (buf.length < 4) := by
    have := congrArg List.length htag
    simp [List.length_take] at this
    omega
  unfold splCoption
  rw [if_neg hlen, if_pos htag, hsz]
  show (if n ≤ (List.drop 4 buf).length then
      (Except.ok (false, List.drop n (List.drop 4 buf)) : CPResult (Bool × List Nat))
    else .error .PanicOutOfBounds) = _
  rw [if_pos (by rw [List.length_drop]; exact hle)]
  rw [List.drop_drop, Nat.add_comm]

/-- C4: Reading `COption(T)` under the fixed-size (spl) convention consumes a
4-byte tag.  Tag `[0,0,0,0]`: the value is absent, JSON `null` is emitted and
the cursor advances `4 + size_of(T)` bytes in total, failing with the
cannot-determine-size error when the oracle returns `none` for `T` (the code
passes no type map to the oracle; conjunct 6 ties that call to the fuelled
oracle).  Tag `[1,0,0,0]`: the value is present and the inner value is decoded
next.  Any other 4-byte tag fails with the invalid-tag error, and a buffer
shorter than 4 bytes fails with the buffer-too-short error. -/
theorem C4_spl_coption :
    (∀ opts tm fuel inner (buf : List Nat) n,
      buf.take 4 = [0, 0, 0, 0] →
      idl_type_bytes_nomap inner = some n → n ≤ buf.length - 4 →
      de_go .spl opts tm (fuel + 1) (.ty (.COption inner)) buf =
        .ok ("null", buf.drop (4 + n))) ∧
    (∀ opts tm fuel inner (buf : List Nat),
      buf.take 4 = [0, 0, 0, 0] →
      idl_type_bytes_nomap inner = none →
      de_go .spl opts tm (fuel + 1) (.ty (.COption inner)) buf =
        .error (.InvalidDataToDeserialize "coption"
          "byte size of inner type needs to be known when it is None" (buf.drop 4))) ∧
    (∀ opts tm fuel inner (buf : List Nat),
      buf.take 4 = [1, 0, 0, 0] →
      de_go .spl opts tm (fuel + 1) (.ty (.COption inner)) buf =
        wrapErr (.CompositeDeserializeError "Option")
          (de_go .spl opts tm fuel (.ty inner) (buf.drop 4))) ∧
    (∀ opts tm fuel inner (buf : List Nat),
      4 ≤ buf.length →
      buf.take 4 ≠ [0, 0, 0, 0] → buf.take 4 ≠ [1, 0, 0, 0] →
      de_go .spl opts tm (fuel + 1) (.ty (.COption inner)) buf =
        .error (.InvalidDataToDeserialize "coption" "invalid tag" (buf.take 4))) ∧
    (∀ opts tm fuel inner (buf : List Nat),
      buf.length < 4 →
      de_go .spl opts tm (fuel + 1) (.ty (.COption inner)) buf =
        .error (.InvalidDataToDeserialize "coption" "buf too short" buf)) ∧
    (∀ (fuel : Nat) (inner : IdlType), typeDepth inner ≤ fuel →
      idl_type_bytes fuel inner none = idl_type_bytes_nomap inner) := by
  refine ⟨?_, ?_, ?_, ?_, ?_, idl_type_bytes_none_eq_nomap⟩
  · intro opts tm fuel inner buf n htag hsz hle
    rw [de_go_coption_eq,
      show readCOption .spl inner buf = splCoption inner buf from rfl,
      splCoption_absent htag hsz hle]
    rfl
  · intro opts tm fuel inner buf htag hsz
    have hlen : ¬ (buf.length < 4) := by
      have := congrArg List.length htag
      simp [List.length_take] at this
      omega
    have hc : splCoption inner buf =
        .error (.InvalidDataToDeserialize "coption"
          "byte size of inner type needs to be known when it is None" (buf.drop 4)) := by
      unfold splCoption
      rw [if_neg hlen, if_pos htag, hsz]
    rw [de_go_coption_eq,
      show readCOption .spl inner buf = splCoption inner buf from rfl, hc]
  · intro opts tm fuel inner buf htag
    have hlen : ¬ (buf.length < 4) := by
      have := congrArg List.length htag
      simp [List.length_take] at this
      omega
    have hc : splCoption inner buf = .ok (true, buf.drop 4) := by
      unfold splCoption
      rw [if_neg hlen, if_neg (by rw [htag]; decide), if_pos htag]
    rw [de_go_coption_eq,
      show readCOption .spl inner buf = splCoption inner buf from rfl, hc]
    rfl
  · intro opts tm fuel inner buf hlen h0 h1
    have hc : splCoption inner buf =
        .error (.InvalidDataToDeserialize "coption" "invalid tag" (buf.take 4)) := by
      unfold splCoption
      rw [if_neg (by omega), if_neg h0, if_neg h1]
    rw [de_go_coption_eq,
      show readCOption .spl inner buf = splCoption inner buf from rfl, hc]
  · intro opts tm fuel inner buf hlen
    have hc : splCoption inner buf =
        .error (.InvalidDataToDeserialize "coption" "buf too short" buf) := by
      unfold splCoption
      rw [if_pos hlen]
    rw [de_go_coption_eq,
      show readCOption .spl inner buf = splCoption inner buf from rfl, hc]

/-- Witness for C4: all five tag behaviors and the oracle agreement at
concrete inputs. -/
theorem C4_spl_coption_witness :
    de_go .spl defaultOpts [] 3 (.ty (.COption .U16)) [0, 0, 0, 0, 9, 9] =
      .ok ("null", []) ∧
    de_go .spl defaultOpts [] 3 (.ty (.COption .Str)) [0, 0, 0, 0, 9] =
      .error (.InvalidDataToDeserialize "coption"
        "byte size of inner type needs to be known when it is None" [9]) ∧
    de_go .spl defaultOpts [] 3 (.ty (.COption .U8)) [1, 0, 0, 0, 42] =
      wrapErr (.CompositeDeserializeError "Option")
        (de_go .spl defaultOpts [] 2 (.ty .U8) [42]) ∧
    de_go .spl defaultOpts [] 3 (.ty (.COption .U8)) [2, 0, 0, 0, 42] =
      .error (.InvalidDataToDeserialize "coption" "invalid tag" [2, 0, 0, 0]) ∧
    de_go .spl defaultOpts [] 3 (.ty (.COption .U8)) [1, 2] =
      .error (.InvalidDataToDeserialize "coption" "buf too short" [1, 2]) ∧
    idl_type_bytes 2 (.COption .U64) none = idl_type_bytes_nomap (.COption .U64) := by
  refine ⟨?_, ?_, ?_, ?_, ?_, ?_⟩
  · exact C4_spl_coption.1 defaultOpts [] 2 .U16 [0, 0, 0, 0, 9, 9] 2 rfl rfl (by decide)
  · exact C4_spl_coption.2.1 defaultOpts [] 2 .Str [0, 0, 0, 0, 9] rfl rfl
  · exact C4_spl_coption.2.2.1 defaultOpts [] 2 .U8 [1, 0, 0, 0, 42] rfl
  · exact C4_spl_coption.2.2.2.1 defaultOpts [] 2 .U8 [2, 0, 0, 0, 42] (by decide)
      (by decide) (by decide)
  · exact C4_spl_coption.2.2.2.2.1 defaultOpts [] 2 .U8 [1, 2] (by decide)
  · exact C4_spl_coption.2.2.2.2.2 2 (.COption .U64) (by decide)

/-- C8: Encoding the on-chain IDL container produces exactly the 8 fixed
discriminator bytes `18 46 62 bf 3a 90 7b 9e`, then the 32-byte authority
public key, then the 4-byte little-endian length of the uncompressed JSON,
then the compressed stream of that JSON; decoding strips exactly the first 44
bytes and inflates the tail; and, provided the external collaborators are
faithful (inflate inverts deflate and the IDL JSON codec round-trips — both
live outside this repository), decoding the encoding of any IDL recovers the
original IDL. -/
theorem C8_idl_container {α : Type} :
    (∀ (toJsonBytes : α → List Nat) (deflate : List Nat → List Nat)
       (pk : List Nat) (idl : α),
      encode_idl_account toJsonBytes deflate pk idl =
        [0x18, 0x46, 0x62, 0xbf, 0x3a, 0x90, 0x7b, 0x9e] ++ pk ++
          u32le (toJsonBytes idl).length ++ deflate (toJsonBytes idl)) ∧
    (∀ (inflate : List Nat → List Nat) (parseIdl : List Nat → Option α)
       (data : List Nat),
      decode_idl_account_data inflate parseIdl data =
        parseIdl (inflate (data.drop 44))) ∧
    (∀ (toJsonBytes : α → List Nat) (deflate inflate : List Nat → List Nat)
       (parseIdl : List Nat → Option α) (pk : List Nat) (idl : α),
      pk.length = 32 →
      (∀ x, inflate (deflate x) = x) →
      (∀ i, parseIdl (toJsonBytes i) = some i) →
      decode_idl_account_data inflate parseIdl
        (encode_idl_account toJsonBytes deflate pk idl) = some idl) := by
  refine ⟨fun _ _ _ _ => rfl, fun _ _ _ => rfl, ?_⟩
  intro toJsonBytes deflate inflate parseIdl pk idl hpk hinf hparse
  unfold decode_idl_account_data encode_idl_account
  have hassoc : IDL_DISCRIMINATOR ++ pk ++ u32le (toJsonBytes idl).length ++
      deflate (toJsonBytes idl) =
      (IDL_DISCRIMINATOR ++ pk ++ u32le (toJsonBytes idl).length) ++
        deflate (toJsonBytes idl) := by
    simp [List.append_assoc]
  rw [hassoc]
  have hlen : (IDL_DISCRIMINATOR ++ pk ++ u32le (toJsonBytes idl).length).length =
      IDL_HEADER_SIZE := by
    simp [IDL_DISCRIMINATOR, u32le, IDL_HEADER_SIZE, hpk]
  rw [show (IDL_HEADER_SIZE : Nat) = (IDL_DISCRIMINATOR ++ pk ++
      u32le (toJsonBytes idl).length).length from hlen.symm]
  rw [List.drop_left, hinf, hparse]

/-- Witness for C8: the round trip with the external collaborators
instantiated by functions satisfying the hypotheses (identity compression and
an identity JSON codec on raw byte lists). -/
theorem C8_idl_container_witness :
    decode_idl_account_data (α := List Nat) id some
      (encode_idl_account id id (List.replicate 32 0) [1, 2, 3]) = some [1, 2, 3] := by
  exact C8_idl_container.2.2 id id id some (List.replicate 32 0) [1, 2, 3]
    (by decide) (fun x => rfl) (fun i => rfl)

/-! ## Structural discriminator construction (C3, C10) -/

/-- The sizes the oracle knows, in field order (unknown-size fields skipped). -/
def knownFieldSizes (fuel : Nat) (tm : TypeMap) (fields : List IdlField) : List Nat :=
  fields.filterMap (fun f => idl_type_bytes fuel f.ty (some tm))

/-- Running offsets of a size list: `prefixSums [s0, s1, s2] = [0, s0, s0+s1]`. -/
def prefixSums : List Nat → List Nat
  | [] => []
  | s :: rest => 0 :: (prefixSums rest).map (s + ·)

theorem base_sizes_go_eq (fuel : Nat) (tm : TypeMap) :
    ∀ (fields : List IdlField) (off : Nat),
      base_sizes_go fuel tm fields off =
        (knownFieldSizes fuel tm fields,
         (prefixSums (knownFieldSizes fuel tm fields)).map (off + ·)) := by
  intro fields
  induction fields with
  | nil => intro off; rfl
  | cons f rest ih =>
    intro off
    unfold base_sizes_go
    cases hs : idl_type_bytes fuel f.ty (some tm) with
    | none =>
      rw [ih off]
      unfold knownFieldSizes
      rw [List.filterMap_cons_none (by exact hs)]
    | some s =>
      show (s :: (base_sizes_go fuel tm rest (off + s)).1,
            off :: (base_sizes_go fuel tm rest (off + s)).2) = _
      rw [ih (off + s)]
      unfold knownFieldSizes
      simp [List.filterMap_cons, hs, prefixSums, List.map_map, Function.comp,
        Nat.add_assoc]

/-- Modelled from the spec (claim C3's reading of `base_account_sizes`): the
per-field offset/size computation *stops* at the first field whose size the
oracle cannot determine, so no later field contributes. -/
def base_sizes_go_stop (fuel : Nat) (tm : TypeMap) : List IdlField → Nat → (List Nat × List Nat)
  | [], _ => ([], [])
  | f :: rest, offset =>
    match idl_type_bytes fuel f.ty (some tm) with
    | some size =>
      let p := base_sizes_go_stop fuel tm rest (offset + size)
      (size :: p.1, offset :: p.2)
    | none => ([], [])

/-- Modelled from the spec: `base_account_sizes` under the claim's stopping
semantics. -/
def base_account_sizes_stop (fuel : Nat) (account : IdlTypeDefinition) (tm : TypeMap) :
    Option (List Nat × List Nat) :=
  match account.ty with
  | .Struct fields => some (base_sizes_go_stop fuel tm fields 0)
  | _ => none

/-- C3 counterexample: for the account `T { a: bool, b: Vec<u8>, c: bool }`
the code does not stop at the unknown-size field `b`: the later field `c`
still contributes an offset and a size (`base_account_sizes` returns sizes
`[1,1]` and offsets `[0,1]`, so `min_total_size` is 2), while under the
claim's stopping semantics only `a` contributes (sizes `[1]`, offsets `[0]`,
minimum size 1). -/
theorem C3_counterexample :
    base_account_sizes 9 ⟨"T", .Struct [⟨"a", .Bool⟩, ⟨"b", .Vec .U8⟩, ⟨"c", .Bool⟩]⟩ [] =
      some ([1, 1], [0, 1]) ∧
    base_account_sizes_stop 9 ⟨"T", .Struct [⟨"a", .Bool⟩, ⟨"b", .Vec .U8⟩, ⟨"c", .Bool⟩]⟩ [] =
      some ([1], [0]) ∧
    base_account_sizes 9 ⟨"T", .Struct [⟨"a", .Bool⟩, ⟨"b", .Vec .U8⟩, ⟨"c", .Bool⟩]⟩ [] ≠
      base_account_sizes_stop 9 ⟨"T", .Struct [⟨"a", .Bool⟩, ⟨"b", .Vec .U8⟩, ⟨"c", .Bool⟩]⟩ [] := by
  refine ⟨rfl, rfl, ?_⟩
  intro h
  rw [show base_account_sizes 9 ⟨"T", .Struct [⟨"a", .Bool⟩, ⟨"b", .Vec .U8⟩, ⟨"c", .Bool⟩]⟩ [] =
      some ([1, 1], [0, 1]) from rfl] at h
  rw [show base_account_sizes_stop 9 ⟨"T", .Struct [⟨"a", .Bool⟩, ⟨"b", .Vec .U8⟩, ⟨"c", .Bool⟩]⟩ [] =
      some ([1], [0]) from rfl] at h
  simp at h

/-- C3 (amended): for a struct account the construction *skips* each field
whose size the oracle cannot determine (later known-size fields still
contribute): the recorded sizes are the oracle sizes of the known-size fields
in order and the offsets are their prefix sums; a non-struct account yields
no sizes.  Matchers pair the full field list positionally with the collected
offsets (so the pairing misaligns after a skipped field): a paired `COption`
field contributes a COption matcher (inner size from the oracle, 0 when
unknown), a paired `Bool` field a bool matcher, any other no matcher.
`min_total_size` is the sum of the known sizes, and an account producing zero
matchers is excluded from the discriminator set. -/
theorem C3_structural_construction :
    (∀ fuel tm nm (fields : List IdlField),
      base_account_sizes fuel ⟨nm, .Struct fields⟩ tm =
        some (knownFieldSizes fuel tm fields,
              prefixSums (knownFieldSizes fuel tm fields))) ∧
    (∀ fuel tm nm variants,
      base_account_sizes fuel ⟨nm, .Enum variants⟩ tm = none) ∧
    (∀ fuel tm off (ty : IdlType),
      matcher_try_from fuel ty tm off =
        match ty with
        | .COption inner =>
          some (.COption off ((idl_type_bytes fuel inner (some tm)).getD 0))
        | .Bool => some (.Bool off)
        | _ => none) ∧
    (∀ fuel tm nm (fields : List IdlField) (offsets : List Nat),
      account_matchers fuel ⟨nm, .Struct fields⟩ tm offsets =
        (fields.zip offsets).filterMap
          (fun fo => matcher_try_from fuel fo.1.ty tm fo.2)) ∧
    (∀ fuel tm acc,
      MatchDiscriminator.new fuel acc tm =
        match base_account_sizes fuel acc tm with
        | some sp =>
          if account_matchers fuel acc tm sp.2 = [] then none
          else some ⟨acc, sp.1.sum, account_matchers fuel acc tm sp.2⟩
        | none => none) := by
  refine ⟨?_, ?_, ?_, ?_, ?_⟩
  · intro fuel tm nm fields
    show some (base_sizes_go fuel tm fields 0) = _
    rw [base_sizes_go_eq]
    simp
  · intro fuel tm nm variants; rfl
  · intro fuel tm off ty; cases ty <;> rfl
  · intro fuel tm nm fields offsets; rfl
  · intro fuel tm acc
    unfold MatchDiscriminator.new
    cases base_account_sizes fuel acc tm with
    | none => rfl
    | some sp =>
      by_cases hm : account_matchers fuel acc tm sp.2 = []
      · simp [hm]
      · simp [hm]

/-- C10 counterexample: for the account
`X { v: Vec<u8>, b: bool, z: [u8; 0] }` the constructed discriminator has
`min_total_size = 1` but its single bool matcher sits at offset 1 (the
`fields.zip(offsets)` pairing misaligns after the skipped unknown-size field
`v`), so `offset + 1 = 2 > min_total_size`, and evaluating the matchers on the
length-1 blob `[5]` (which passes the `min_total_size` check) reads out of
bounds (`none` models the Rust `array_ref!` panic). -/
theorem C10_counterexample :
    MatchDiscriminator.new 9
        ⟨"X", .Struct [⟨"v", .Vec .U8⟩, ⟨"b", .Bool⟩, ⟨"z", .Array .U8 0⟩]⟩ [] =
      some ⟨⟨"X", .Struct [⟨"v", .Vec .U8⟩, ⟨"b", .Bool⟩, ⟨"z", .Array .U8 0⟩]⟩,
            1, [.Bool 1]⟩ ∧
    ¬ ((1 : Nat) + 1 ≤ 1) ∧
    matchesAccount
        ⟨⟨"X", .Struct [⟨"v", .Vec .U8⟩, ⟨"b", .Bool⟩, ⟨"z", .Array .U8 0⟩]⟩,
         1, [.Bool 1]⟩ [5] = none := by
  exact ⟨rfl, by decide, rfl⟩

theorem matchers_bounds_go (fuel : Nat) (tm : TypeMap) :
    ∀ (fields : List IdlField) (off : Nat),
      (∀ f ∈ fields, (idl_type_bytes fuel f.ty (some tm)).isSome) →
      ∀ m ∈ (fields.zip ((base_sizes_go fuel tm fields off).2)).filterMap
          (fun fo => matcher_try_from fuel fo.1.ty tm fo.2),
        (∀ o, m = .Bool o → o + 1 ≤ off + (base_sizes_go fuel tm fields off).1.sum) ∧
        (∀ o sz, m = .COption o sz → o + 4 ≤ off + (base_sizes_go fuel tm fields off).1.sum) := by
  intro fields
  induction fields with
  | nil => intro off hk m hm; simp [base_sizes_go] at hm
  | cons f rest ih =>
    intro off hk m hm
    have hf : (idl_type_bytes fuel f.ty (some tm)).isSome := hk f (by simp)
    cases hs : idl_type_bytes fuel f.ty (some tm) with
    | none => rw [hs] at hf; simp at hf
    | some s =>
      have hrest : ∀ g ∈ rest, (idl_type_bytes fuel g.ty (some tm)).isSome := by
        intro g hg; exact hk g (by simp [hg])
      have hbs : base_sizes_go fuel tm (f :: rest) off =
          (s :: (base_sizes_go fuel tm rest (off + s)).1,
           off :: (base_sizes_go fuel tm rest (off + s)).2) := by
        conv_lhs => unfold base_sizes_go
        rw [hs]
      rw [hbs] at hm
      rw [hbs]
      have hsum : (s :: (base_sizes_go fuel tm rest (off + s)).1).sum =
          s + (base_sizes_go fuel tm rest (off + s)).1.sum := by simp
      rw [List.zip_cons_cons, List.filterMap_cons] at hm
      cases hmt : matcher_try_from fuel f.ty tm off with
      | none =>
        rw [hmt] at hm
        have := ih (off + s) hrest m hm
        constructor
        · intro o ho
          have hb := (this.1) o ho
          rw [hsum]; omega
        · intro o sz ho
          have hb := (this.2) o sz ho
          rw [hsum]; omega
      | some m0 =>
        rw [hmt] at hm
        rcases List.mem_cons.mp hm with heq | hm'
        · subst heq
          unfold matcher_try_from at hmt
          split at hmt
          next inner heqty =>
            have hm0 : m = .COption off ((idl_type_bytes fuel inner (some tm)).getD 0) :=
              (Option.some.inj hmt).symm
            subst hm0
            have hs4 : 4 ≤ s := by
              rw [heqty] at hs
              cases fuel with
              | zero => exact absurd hs (by simp [idl_type_bytes, size_go])
              | succ g =>
                have hco : idl_type_bytes (g + 1) (.COption inner) (some tm) =
                    (size_go g (.ty inner) (some tm)).map (· + 4) :=
                  size_go_coption g inner (some tm)
                rw [hco] at hs
                cases hin : size_go g (.ty inner) (some tm) with
                | none => rw [hin] at hs; simp at hs
                | some i =>
                  rw [hin] at hs
                  have : i + 4 = s := Option.some.inj hs
                  omega
            constructor
            · intro o ho; cases ho
            · intro o sz ho
              have : o = off := by cases ho; rfl
              subst this
              rw [hsum]
              omega
          next heqty =>
            have hm0 : m = .Bool off := (Option.some.inj hmt).symm
            subst hm0
            have hs1 : s = 1 := by
              rw [heqty] at hs
              cases fuel with
              | zero => exact absurd hs (by simp [idl_type_bytes, size_go])
              | succ g =>
                have hb1 : idl_type_bytes (g + 1) .Bool (some tm) = some 1 := rfl
                rw [hb1] at hs
                exact (Option.some.inj hs).symm
            constructor
            · intro o ho
              have : o = off := by cases ho; rfl
              subst this
              rw [hsum, hs1]
              omega
            · intro o sz ho; cases ho
          next h1 h2 =>
            simp at hmt
        · have := ih (off + s) hrest m hm'
          constructor
          · intro o ho
            have hb := (this.1) o ho
            rw [hsum]; omega
          · intro o sz ho
            have hb := (this.2) o sz ho
            rw [hsum]; omega

theorem allMatch_isSome : ∀ (ms : List Matcher) (buf : List Nat),
    (∀ m ∈ ms, (matcher_matches m buf).isSome) → (allMatch ms buf).isSome := by
  intro ms buf
  induction ms with
  | nil => intro _; rfl
  | cons m rest ih =>
    intro h
    have hm := h m (by simp)
    unfold allMatch
    cases hmm : matcher_matches m buf with
    | none => rw [hmm] at hm; simp at hm
    | some b =>
      cases b
      · rfl
      · exact ih (fun m' hm' => h m' (by simp [hm']))

/-- C10 (amended): provided every field's size is known to the oracle (so no
field is skipped and the `fields.zip(offsets)` pairing stays aligned), every
bool matcher of a constructed discriminator satisfies
`offset + 1 ≤ min_total_size` and every COption matcher satisfies
`offset + 4 ≤ min_total_size`; consequently, for every blob at least
`min_total_size` long, evaluating the account's matchers performs only
in-bounds reads (`matchesAccount` cannot hit the modelled `array_ref!`
panic). -/
theorem C10_matcher_bounds :
    (∀ fuel tm nm (fields : List IdlField) md,
      (∀ f ∈ fields, (idl_type_bytes fuel f.ty (some tm)).isSome) →
      MatchDiscriminator.new fuel ⟨nm, .Struct fields⟩ tm = some md →
      ∀ m ∈ md.matchers,
        (∀ o, m = .Bool o → o + 1 ≤ md.min_total_size) ∧
        (∀ o sz, m = .COption o sz → o + 4 ≤ md.min_total_size)) ∧
    (∀ md (buf : List Nat),
      (∀ m ∈ md.matchers,
        (∀ o, m = .Bool o → o + 1 ≤ md.min_total_size) ∧
        (∀ o sz, m = .COption o sz → o + 4 ≤ md.min_total_size)) →
      md.min_total_size ≤ buf.length →
      (matchesAccount md buf).isSome) := by
  constructor
  · intro fuel tm nm fields md hk hnew
    have hnew' : (if (account_matchers fuel ⟨nm, .Struct fields⟩ tm
          (base_sizes_go fuel tm fields 0).2).isEmpty then (none : Option MatchDiscriminator)
        else some ⟨⟨nm, .Struct fields⟩, (base_sizes_go fuel tm fields 0).1.sum,
          account_matchers fuel ⟨nm, .Struct fields⟩ tm
            (base_sizes_go fuel tm fields 0).2⟩) = some md := hnew
    split at hnew'
    · exact absurd hnew' (by simp)
    · cases Option.some.inj hnew'
      intro m hm
      have hb := matchers_bounds_go fuel tm fields 0 hk m hm
      constructor
      · intro o ho
        have := hb.1 o ho
        simpa using this
      · intro o sz ho
        have := hb.2 o sz ho
        simpa using this
  · intro md buf hb hlen
    unfold matchesAccount
    rw [if_neg (by omega)]
    apply allMatch_isSome
    intro m hm
    have := hb m hm
    cases m with
    | Bool o =>
      have hbound := this.1 o rfl
      show (if o + 1 ≤ buf.length then
          some (buf.getD o 0 == 0 || buf.getD o 0 == 1) else none).isSome = true
      rw [if_pos (by omega)]
      rfl
    | COption o sz =>
      have hbound := this.2 o sz rfl
      show (if o + 4 ≤ buf.length then
          some ((buf.drop o).take 4 == [1, 0, 0, 0] || (buf.drop o).take 4 == [0, 0, 0, 0])
        else none).isSome = true
      rw [if_pos (by omega)]
      rfl

/-- Witness for C10: the bounds and panic-freedom applied to the concrete
account `A { a: bool, b: bool }` (all field sizes known) and the blob
`[1, 0]`. -/
theorem C10_matcher_bounds_witness :
    (∀ m ∈ ([.Bool 0, .Bool 1] : List Matcher),
      (∀ o, m = .Bool o → o + 1 ≤ 2) ∧
      (∀ o sz, m = .COption o sz → o + 4 ≤ 2)) ∧
    (matchesAccount
      ⟨⟨"A", .Struct [⟨"a", .Bool⟩, ⟨"b", .Bool⟩]⟩, 2, [.Bool 0, .Bool 1]⟩
      [1, 0]).isSome := by
  have h1 := C10_matcher_bounds.1 9 [] "A" [⟨"a", .Bool⟩, ⟨"b", .Bool⟩]
    ⟨⟨"A", .Struct [⟨"a", .Bool⟩, ⟨"b", .Bool⟩]⟩, 2, [.Bool 0, .Bool 1]⟩
    (by intro f hf
        rcases List.mem_cons.mp hf with h | h
        · subst h; rfl
        · rcases List.mem_cons.mp h with h2 | h2
          · subst h2; rfl
          · exact absurd h2 (List.not_mem_nil f))
    rfl
  exact ⟨h1, C10_matcher_bounds.2
    ⟨⟨"A", .Struct [⟨"a", .Bool⟩, ⟨"b", .Bool⟩]⟩, 2, [.Bool 0, .Bool 1]⟩
    [1, 0] h1 (by decide)⟩

/-! ## Structural discriminator selection (C2) -/

/-- A discriminator matched the blob (length admitted and all matchers hold). -/
def matchedB (buf : List Nat) (d : MatchDiscriminator) : Bool :=
  matchesAccount d buf == some true

/-- The candidate set C of the classification phase, in list order. -/
def candidatesOf (discs : List MatchDiscriminator) (buf : List Nat) :
    List MatchDiscriminator :=
  discs.filter (matchedB buf)

def maxMatchers (C : List MatchDiscriminator) : Nat :=
  (C.map (fun d => d.matchers.length)).foldr Nat.max 0

/-- The claim's selection rule, written independently of the code's loop:
among the candidates (in list order), pick the first with exactly the blob's
length if one exists, else the first attaining the maximal matcher count. -/
def selectSpec (discs : List MatchDiscriminator) (buf : List Nat) :
    Option MatchDiscriminator :=
  let C := candidatesOf discs buf
  match C.find? (fun d => d.min_total_size == buf.length) with
  | some d => some d
  | none => C.find? (fun d => decide (maxMatchers C ≤ d.matchers.length))

theorem le_maxMatchers : ∀ (C : List MatchDiscriminator) (d : MatchDiscriminator),
    d ∈ C → d.matchers.length ≤ maxMatchers C := by
  intro C
  induction C with
  | nil => intro d h; exact absurd h (List.not_mem_nil d)
  | cons c rest ih =>
    intro d h
    have hm : maxMatchers (c :: rest) = max c.matchers.length (maxMatchers rest) := rfl
    rcases List.mem_cons.mp h with he | hm'
    · subst he; rw [hm]; omega
    · have := ih d hm'; rw [hm]; omega

theorem bestCandidate_some_eq : ∀ (C : List MatchDiscriminator) (b : MatchDiscriminator),
    bestCandidate C (some b) =
      if maxMatchers C ≤ b.matchers.length then some b
      else C.find? (fun d => decide (maxMatchers C ≤ d.matchers.length)) := by
  intro C
  induction C with
  | nil =>
    intro b
    rw [if_pos (by show maxMatchers [] ≤ _; simp [maxMatchers])]
    rfl
  | cons c rest ih =>
    intro b
    have hM : maxMatchers (c :: rest) = max c.matchers.length (maxMatchers rest) := rfl
    show (if b.matchers.length < c.matchers.length then bestCandidate rest (some c)
      else bestCandidate rest (some b)) = _
    by_cases hbc : b.matchers.length < c.matchers.length
    · rw [if_pos hbc, ih c]
      have hneg : ¬ (maxMatchers (c :: rest) ≤ b.matchers.length) := by rw [hM]; omega
      rw [if_neg hneg]
      by_cases hMc : maxMatchers rest ≤ c.matchers.length
      · rw [if_pos hMc]
        have hfind : List.find?
            (fun d => decide (maxMatchers (c :: rest) ≤ d.matchers.length)) (c :: rest) =
            some c := by
          apply List.find?_cons_of_pos
          show decide (maxMatchers (c :: rest) ≤ c.matchers.length) = true
          exact decide_eq_true (by rw [hM]; omega)
        rw [hfind]
      · rw [if_neg hMc]
        have hfind : List.find?
            (fun d => decide (maxMatchers (c :: rest) ≤ d.matchers.length)) (c :: rest) =
            List.find? (fun d => decide (maxMatchers (c :: rest) ≤ d.matchers.length)) rest := by
          apply List.find?_cons_of_neg
          show ¬ (decide (maxMatchers (c :: rest) ≤ c.matchers.length) = true)
          simp only [decide_eq_true_eq]
          rw [hM]; omega
        rw [hfind]
        have hMeq : maxMatchers (c :: rest) = maxMatchers rest := by rw [hM]; omega
        rw [hMeq]
    · rw [if_neg hbc, ih b]
      by_cases hMb : maxMatchers rest ≤ b.matchers.length
      · rw [if_pos hMb]
        have hpos : maxMatchers (c :: rest) ≤ b.matchers.length := by rw [hM]; omega
        rw [if_pos hpos]
      · rw [if_neg hMb]
        have hneg : ¬ (maxMatchers (c :: rest) ≤ b.matchers.length) := by rw [hM]; omega
        rw [if_neg hneg]
        have hfind : List.find?
            (fun d => decide (maxMatchers (c :: rest) ≤ d.matchers.length)) (c :: rest) =
            List.find? (fun d => decide (maxMatchers (c :: rest) ≤ d.matchers.length)) rest := by
          apply List.find?_cons_of_neg
          show ¬ (decide (maxMatchers (c :: rest) ≤ c.matchers.length) = true)
          simp only [decide_eq_true_eq]
          rw [hM]; omega
        rw [hfind]
        have hMeq : maxMatchers (c :: rest) = maxMatchers rest := by rw [hM]; omega
        rw [hMeq]

theorem bestCandidate_none_eq : ∀ (C : List MatchDiscriminator),
    bestCandidate C none =
      C.find? (fun d => decide (maxMatchers C ≤ d.matchers.length)) := by
  intro C
  cases C with
  | nil => rfl
  | cons c rest =>
    have hM : maxMatchers (c :: rest) = max c.matchers.length (maxMatchers rest) := rfl
    show bestCandidate rest (some c) = _
    rw [bestCandidate_some_eq rest c]
    by_cases hMc : maxMatchers rest ≤ c.matchers.length
    · rw [if_pos hMc]
      have hfind : List.find?
          (fun d => decide (maxMatchers (c :: rest) ≤ d.matchers.length)) (c :: rest) =
          some c := by
        apply List.find?_cons_of_pos
        show decide (maxMatchers (c :: rest) ≤ c.matchers.length) = true
        exact decide_eq_true (by rw [hM]; omega)
      rw [hfind]
    · rw [if_neg hMc]
      have hfind : List.find?
          (fun d => decide (maxMatchers (c :: rest) ≤ d.matchers.length)) (c :: rest) =
          List.find? (fun d => decide (maxMatchers (c :: rest) ≤ d.matchers.length)) rest := by
        apply List.find?_cons_of_neg
        show ¬ (decide (maxMatchers (c :: rest) ≤ c.matchers.length) = true)
        simp only [decide_eq_true_eq]
        rw [hM]; omega
      rw [hfind]
      have hMeq : maxMatchers (c :: rest) = maxMatchers rest := by rw [hM]; omega
      rw [hMeq]

theorem findGo_eq : ∀ (discs : List MatchDiscriminator) (buf : List Nat)
    (cands : List MatchDiscriminator),
    (∀ d ∈ discs, matchesAccount d buf ≠ none) →
    findGo discs buf cands =
      some (match (candidatesOf discs buf).find?
          (fun d => d.min_total_size == buf.length) with
        | some d => some d
        | none => bestCandidate (cands ++ candidatesOf discs buf) none) := by
  intro discs buf
  induction discs with
  | nil =>
    intro cands hnp
    show some (bestCandidate cands none) = _
    rw [show candidatesOf [] buf = [] from rfl]
    rw [List.append_nil]
    rfl
  | cons d rest ih =>
    intro cands hnp
    have hd := hnp d (by simp)
    cases hma : matchesAccount d buf with
    | none => exact absurd hma hd
    | some b =>
      have hrest : ∀ x ∈ rest, matchesAccount x buf ≠ none := by
        intro x hx; exact hnp x (by simp [hx])
      cases b with
      | true =>
        have hcand : candidatesOf (d :: rest) buf = d :: candidatesOf rest buf := by
          unfold candidatesOf
          rw [List.filter_cons_of_pos (by unfold matchedB; rw [hma]; rfl)]
        show (match matchesAccount d buf with
          | none => (none : Option (Option MatchDiscriminator))
          | some true =>
            if d.min_total_size = buf.length then some (some d)
            else findGo rest buf (cands ++ [d])
          | some false => findGo rest buf cands) = _
        rw [hma]
        show (if d.min_total_size = buf.length then some (some d)
          else findGo rest buf (cands ++ [d])) = _
        by_cases hex : d.min_total_size = buf.length
        · rw [if_pos hex, hcand]
          have hfind : List.find? (fun x => x.min_total_size == buf.length)
              (d :: candidatesOf rest buf) = some d := by
            apply List.find?_cons_of_pos
            show (d.min_total_size == buf.length) = true
            exact beq_iff_eq.mpr hex
          rw [hfind]
        · rw [if_neg hex, ih (cands ++ [d]) hrest, hcand]
          have hfind : List.find? (fun x => x.min_total_size == buf.length)
              (d :: candidatesOf rest buf) =
              List.find? (fun x => x.min_total_size == buf.length)
                (candidatesOf rest buf) := by
            apply List.find?_cons_of_neg
            show ¬ ((d.min_total_size == buf.length) = true)
            simp only [beq_iff_eq]
            exact hex
          rw [hfind]
          cases List.find? (fun x => x.min_total_size == buf.length)
              (candidatesOf rest buf) with
          | some y => rfl
          | none =>
            show some (bestCandidate ((cands ++ [d]) ++ candidatesOf rest buf) none) = _
            rw [List.append_assoc, List.singleton_append]
      | false =>
        have hcand : candidatesOf (d :: rest) buf = candidatesOf rest buf := by
          unfold candidatesOf
          rw [List.filter_cons_of_neg (by unfold matchedB; rw [hma]; decide)]
        show (match matchesAccount d buf with
          | none => (none : Option (Option MatchDiscriminator))
          | some true =>
            if d.min_total_size = buf.length then some (some d)
            else findGo rest buf (cands ++ [d])
          | some false => findGo rest buf cands) = _
        rw [hma]
        show findGo rest buf cands = _
        rw [ih cands hrest, hcand]

theorem insertByMin_mem : ∀ (l : List MatchDiscriminator) (d x : MatchDiscriminator),
    x ∈ insertByMin d l → x = d ∨ x ∈ l := by
  intro l d
  induction l with
  | nil => intro x hx; simp [insertByMin] at hx; exact Or.inl hx
  | cons y rest ih =>
    intro x hx
    unfold insertByMin at hx
    by_cases hc : y.min_total_size ≤ d.min_total_size
    · rw [if_pos hc] at hx
      rcases List.mem_cons.mp hx with he | hx'
      · exact Or.inr (by simp [he])
      · rcases ih x hx' with h | h
        · exact Or.inl h
        · exact Or.inr (by simp [h])
    · rw [if_neg hc] at hx
      rcases List.mem_cons.mp hx with he | hx'
      · exact Or.inl he
      · exact Or.inr hx'

theorem insertByMin_pairwise : ∀ (l : List MatchDiscriminator) (d : MatchDiscriminator),
    l.Pairwise (fun a b => a.min_total_size ≤ b.min_total_size) →
    (insertByMin d l).Pairwise (fun a b => a.min_total_size ≤ b.min_total_size) := by
  intro l
  induction l with
  | nil => intro d _; simp [insertByMin]
  | cons y rest ih =>
    intro d hp
    have hy := List.pairwise_cons.mp hp
    unfold insertByMin
    by_cases hc : y.min_total_size ≤ d.min_total_size
    · rw [if_pos hc]
      refine List.pairwise_cons.mpr ⟨?_, ih d hy.2⟩
      intro x hx
      rcases insertByMin_mem rest d x hx with he | hm
      · subst he; exact hc
      · exact hy.1 x hm
    · rw [if_neg hc]
      refine List.pairwise_cons.mpr ⟨?_, hp⟩
      intro x hx
      rcases List.mem_cons.mp hx with he | hm
      · subst he; omega
      · have := hy.1 x hm; omega

theorem foldl_insertByMin_pairwise :
    ∀ (xs : List MatchDiscriminator) (acc : List MatchDiscriminator),
      acc.Pairwise (fun a b => a.min_total_size ≤ b.min_total_size) →
      (xs.foldl (fun a d => insertByMin d a) acc).Pairwise
        (fun a b => a.min_total_size ≤ b.min_total_size) := by
  intro xs
  induction xs with
  | nil => intro acc h; exact h
  | cons x rest ih =>
    intro acc h
    exact ih (insertByMin x acc) (insertByMin_pairwise acc x h)

/-- C2 counterexample: with the single structural account `A { a: bool }`
registered and the empty blob, the candidate set C is empty but
classification-plus-decode fails with the blob-too-short error
`AccountDataTooShortForDiscriminatorBytes(0, 1)`, not with
`CannotFindDeserializerForAccount` as the claim states. -/
theorem C2_counterexample :
    matchDeserializeAccountData .borsh defaultOpts [] 1
        (match_discriminators_from 9 [⟨"A", .Struct [⟨"a", .Bool⟩]⟩] []) [] =
      .error (.AccountDataTooShortForDiscriminatorBytes 0 1) ∧
    candidatesOf (match_discriminators_from 9 [⟨"A", .Struct [⟨"a", .Bool⟩]⟩] []) [] = [] ∧
    (Except.error (.AccountDataTooShortForDiscriminatorBytes 0 1) :
        CPResult (String × List Nat)) ≠
      .error .CannotFindDeserializerForAccount := by
  refine ⟨rfl, rfl, ?_⟩
  intro h
  have := Except.error.inj h
  exact absurd this (by decide)

/-- C2 (amended): the constructed structural discriminator set is sorted
ascending by `min_total_size` (stably, so list order is ascending order); for
a blob on which no matcher evaluation panics, classification returns exactly
the claim's selection: among the candidates C (min_total_size admitted and all
matchers match, in list order), the first with `min_total_size` equal to the
blob length if one exists, else the first attaining the maximal matcher count
(`maxMatchers` bounds every candidate, conjunct 2); when C is empty,
classification-plus-decode of a *nonempty* blob fails with
`CannotFindDeserializerForAccount`, while the empty blob fails with
`AccountDataTooShortForDiscriminatorBytes(0, 1)`. -/
theorem C2_match_selection :
    (∀ fuel accounts tm,
      (match_discriminators_from fuel accounts tm).Pairwise
        (fun a b => a.min_total_size ≤ b.min_total_size)) ∧
    (∀ (C : List MatchDiscriminator) (d : MatchDiscriminator),
      d ∈ C → d.matchers.length ≤ maxMatchers C) ∧
    (∀ (discs : List MatchDiscriminator) (buf : List Nat),
      (∀ d ∈ discs, matchesAccount d buf ≠ none) →
      find_matching_disc discs buf = some (selectSpec discs buf)) ∧
    (∀ p opts tm fuel (discs : List MatchDiscriminator) (data : List Nat),
      data ≠ [] →
      (∀ d ∈ discs, matchesAccount d data ≠ none) →
      candidatesOf discs data = [] →
      matchDeserializeAccountData p opts tm fuel discs data =
        .error .CannotFindDeserializerForAccount) ∧
    (∀ p opts tm fuel discs,
      matchDeserializeAccountData p opts tm fuel discs [] =
        .error (.AccountDataTooShortForDiscriminatorBytes 0 1)) := by
  have hsel : ∀ (discs : List MatchDiscriminator) (buf : List Nat),
      (∀ d ∈ discs, matchesAccount d buf ≠ none) →
      find_matching_disc discs buf = some (selectSpec discs buf) := by
    intro discs buf hnp
    unfold find_matching_disc
    rw [findGo_eq discs buf [] hnp]
    show _ = some (match List.find? (fun d => d.min_total_size == buf.length)
        (candidatesOf discs buf) with
      | some d => some d
      | none => List.find?
          (fun d => decide (maxMatchers (candidatesOf discs buf) ≤ d.matchers.length))
          (candidatesOf discs buf))
    cases hf : List.find? (fun d => d.min_total_size == buf.length)
        (candidatesOf discs buf) with
    | some y => rfl
    | none =>
      show some (bestCandidate ([] ++ candidatesOf discs buf) none) = _
      rw [List.nil_append, bestCandidate_none_eq]
  refine ⟨?_, le_maxMatchers, hsel, ?_, ?_⟩
  · intro fuel accounts tm
    exact foldl_insertByMin_pairwise _ [] (by simp)
  · intro p opts tm fuel discs data hne hnp hC
    have hspec : selectSpec discs data = none := by
      unfold selectSpec
      rw [hC]
      rfl
    unfold matchDeserializeAccountData
    rw [if_neg (by simp [hne])]
    rw [hsel discs data hnp, hspec]
  · intro p opts tm fuel discs
    rfl

/-- Witness for C2: the spec's §8 scenario 8 — accounts
`A { a: bool, b: bool }` (2 bytes, 2 matchers) and `B { a: bool, b: u32 }`
(5 bytes, 1 matcher): the 2-byte blob `[1,0]` selects `A` and the 5-byte blob
`[1,0,0,0,0]` selects `B` (exact size); and the cannot-find error on a
nonempty unmatched blob. -/
theorem C2_match_selection_witness :
    find_matching_disc
        (match_discriminators_from 9
          [⟨"A", .Struct [⟨"a", .Bool⟩, ⟨"b", .Bool⟩]⟩,
           ⟨"B", .Struct [⟨"a", .Bool⟩, ⟨"b", .U32⟩]⟩] []) [1, 0] =
      some (selectSpec
        (match_discriminators_from 9
          [⟨"A", .Struct [⟨"a", .Bool⟩, ⟨"b", .Bool⟩]⟩,
           ⟨"B", .Struct [⟨"a", .Bool⟩, ⟨"b", .U32⟩]⟩] []) [1, 0]) ∧
    (selectSpec
        (match_discriminators_from 9
          [⟨"A", .Struct [⟨"a", .Bool⟩, ⟨"b", .Bool⟩]⟩,
           ⟨"B", .Struct [⟨"a", .Bool⟩, ⟨"b", .U32⟩]⟩] []) [1, 0]).map
      (fun d => d.account.name) = some "A" ∧
    (selectSpec
        (match_discriminators_from 9
          [⟨"A", .Struct [⟨"a", .Bool⟩, ⟨"b", .Bool⟩]⟩,
           ⟨"B", .Struct [⟨"a", .Bool⟩, ⟨"b", .U32⟩]⟩] []) [1, 0, 0, 0, 0]).map
      (fun d => d.account.name) = some "B" ∧
    matchDeserializeAccountData .borsh defaultOpts [] 1
        (match_discriminators_from 9 [⟨"B", .Struct [⟨"a", .Bool⟩, ⟨"b", .U32⟩]⟩] [])
        [9] =
      .error .CannotFindDeserializerForAccount := by
  refine ⟨?_, rfl, rfl, ?_⟩
  · exact C2_match_selection.2.2.1
      (match_discriminators_from 9
        [⟨"A", .Struct [⟨"a", .Bool⟩, ⟨"b", .Bool⟩]⟩,
         ⟨"B", .Struct [⟨"a", .Bool⟩, ⟨"b", .U32⟩]⟩] []) [1, 0]
      (by intro d hd
          revert hd
          show d ∈ match_discriminators_from 9
            [⟨"A", .Struct [⟨"a", .Bool⟩, ⟨"b", .Bool⟩]⟩,
             ⟨"B", .Struct [⟨"a", .Bool⟩, ⟨"b", .U32⟩]⟩] [] → _
          intro hd
          rcases List.mem_cons.mp hd with he | hd2
          · subst he; intro h; exact absurd h (by intro hh; cases hh)
          · rcases List.mem_cons.mp hd2 with he | hd3
            · subst he; intro h; exact absurd h (by intro hh; cases hh)
            · exact absurd hd3 (List.not_mem_nil d))
  · exact C2_match_selection.2.2.2.1 .borsh defaultOpts [] 1
      (match_discriminators_from 9 [⟨"B", .Struct [⟨"a", .Bool⟩, ⟨"b", .U32⟩]⟩] [])
      [9] (by decide)
      (by intro d hd
          rcases List.mem_cons.mp hd with he | hd2
          · subst he; intro h; exact absurd h (by intro hh; cases hh)
          · exact absurd hd2 (List.not_mem_nil d))
      rfl

/-! ## Option-independence of the wire reading (C9) -/

/-- The part of a decode result the serialization options are not allowed to
influence: success/failure with the exact error, and the remaining buffer
(hence the number of bytes consumed).  Only the JSON text is dropped. -/
def resShape (r : CPResult (String × List Nat)) : CPResult (List Nat) :=
  r.map Prod.snd

theorem shape_emit {α : Type} (f g : α → String) (r : CPResult (α × List Nat)) :
    resShape (emit f r) = resShape (emit g r) := by
  cases r <;> rfl

theorem shape_rel {r1 r2 : CPResult (String × List Nat)}
    (h : resShape r1 = resShape r2) :
    (∃ s1 s2 rest, r1 = .ok (s1, rest) ∧ r2 = .ok (s2, rest)) ∨
    (∃ e, r1 = .error e ∧ r2 = .error e) := by
  cases r1 with
  | ok v1 =>
    cases r2 with
    | ok v2 =>
      left
      refine ⟨v1.1, v2.1, v1.2, by rfl, ?_⟩
      have hv : v1.2 = v2.2 := by
        simpa [resShape, Except.map] using h
      rw [hv]
    | error e2 => exact absurd h (by simp [resShape, Except.map])
  | error e1 =>
    cases r2 with
    | ok v2 => exact absurd h (by simp [resShape, Except.map])
    | error e2 =>
      right
      refine ⟨e1, rfl, ?_⟩
      have he : e1 = e2 := by simpa [resShape, Except.map] using h
      rw [he]

theorem shape_wrap (w : ChainparserError → ChainparserError)
    {r1 r2 : CPResult (String × List Nat)} (h : resShape r1 = resShape r2) :
    resShape (wrapErr w r1) = resShape (wrapErr w r2) := by
  rcases shape_rel h with ⟨s1, s2, rest, h1, h2⟩ | ⟨e, h1, h2⟩ <;>
    rw [h1, h2] <;> rfl

/-- C9: For every IDL type (indeed every decoder request), every provider,
registry and buffer, and every two settings of the serialization options,
decoding consumes exactly the same bytes and either succeeds on both or fails
on both with the identical error: the options influence only the JSON text
written to the sink, never the wire reading. -/
theorem C9_opts_noninterference :
    ∀ (p : Provider) (tm : TypeMap) (o1 o2 : JsonSerializationOpts) (fuel : Nat)
      (req : DeReq) (buf : List Nat),
      resShape (de_go p o1 tm fuel req buf) = resShape (de_go p o2 tm fuel req buf) := by
  intro p tm o1 o2 fuel
  induction fuel with
  | zero => intro req buf; rfl
  | succ fuel ih =>
    intro req buf
    cases req with
    | ty t =>
      cases t with
      | U8 => rfl
      | U16 => rfl
      | U32 => rfl
      | I8 => rfl
      | I16 => rfl
      | I32 => rfl
      | F32 => rfl
      | F64 => rfl
      | Bool => rfl
      | Str => rfl
      | Bytes => rfl
      | U64 => simp only [de_go]; exact shape_emit _ _ _
      | U128 => simp only [de_go]; exact shape_emit _ _ _
      | I64 => simp only [de_go]; exact shape_emit _ _ _
      | I128 => simp only [de_go]; exact shape_emit _ _ _
      | PublicKey => simp only [de_go]; exact shape_emit _ _ _
      | Tuple inners =>
        simp only [de_go]
        rcases shape_rel (ih (.tupLoop inners) buf) with
            ⟨s1, s2, rest, h1, h2⟩ | ⟨e, h1, h2⟩ <;> simp only [h1, h2, resShape, Except.map]
      | Array inner len =>
        simp only [de_go]
        rcases shape_rel (ih (.arrLoop inner 0 len) buf) with
            ⟨s1, s2, rest, h1, h2⟩ | ⟨e, h1, h2⟩ <;> simp only [h1, h2, resShape, Except.map]
      | Vec inner =>
        simp only [de_go]
        cases hr : readLE 4 "u32" buf with
        | error e => rfl
        | ok v =>
          obtain ⟨len, rbuf⟩ := v
          rcases shape_rel (ih (.vecLoop inner 0 len) rbuf) with
              ⟨s1, s2, rest, h1, h2⟩ | ⟨e, h1, h2⟩ <;> simp only [h1, h2, resShape, Except.map]
      | HashMap k v =>
        simp only [de_go]
        cases hr : readLE 4 "u32" buf with
        | error e => rfl
        | ok lv =>
          obtain ⟨len, rbuf⟩ := lv
          rcases shape_rel (ih (.mapLoop k v 0 len) rbuf) with
              ⟨s1, s2, rest, h1, h2⟩ | ⟨e, h1, h2⟩ <;> simp only [h1, h2, resShape, Except.map]
      | BTreeMap k v =>
        simp only [de_go]
        cases hr : readLE 4 "u32" buf with
        | error e => rfl
        | ok lv =>
          obtain ⟨len, rbuf⟩ := lv
          rcases shape_rel (ih (.mapLoop k v 0 len) rbuf) with
              ⟨s1, s2, rest, h1, h2⟩ | ⟨e, h1, h2⟩ <;> simp only [h1, h2, resShape, Except.map]
      | HashSet inner =>
        simp only [de_go]
        cases hr : readLE 4 "u32" buf with
        | error e => rfl
        | ok lv =>
          obtain ⟨len, rbuf⟩ := lv
          rcases shape_rel (ih (.setLoop inner 0 len) rbuf) with
              ⟨s1, s2, rest, h1, h2⟩ | ⟨e, h1, h2⟩ <;> simp only [h1, h2, resShape, Except.map]
      | BTreeSet inner =>
        simp only [de_go]
        cases hr : readLE 4 "u32" buf with
        | error e => rfl
        | ok lv =>
          obtain ⟨len, rbuf⟩ := lv
          rcases shape_rel (ih (.setLoop inner 0 len) rbuf) with
              ⟨s1, s2, rest, h1, h2⟩ | ⟨e, h1, h2⟩ <;> simp only [h1, h2, resShape, Except.map]
      | Option inner =>
        simp only [de_go]
        cases hr : readOption p buf with
        | error e => rfl
        | ok pv =>
          obtain ⟨present, prest⟩ := pv
          cases present with
          | false => rfl
          | true => exact shape_wrap _ (ih (.ty inner) prest)
      | COption inner =>
        simp only [de_go]
        cases hr : readCOption p inner buf with
        | error e => rfl
        | ok pv =>
          obtain ⟨present, prest⟩ := pv
          cases present with
          | false => rfl
          | true => exact shape_wrap _ (ih (.ty inner) prest)
      | Defined name =>
        simp only [de_go]
        cases hl : lookupTm name tm with
        | none => rfl
        | some d => exact shape_wrap _ (ih (.tdefDe name d) buf)
    | arrLoop inner i len =>
      simp only [de_go]
      by_cases hi : i < len
      · rw [if_pos hi, if_pos hi]
        rcases shape_rel (shape_wrap
            (.CompositeDeserializeError
              ("Array[" ++ toString i ++ "] size(" ++ toString len ++ ")"))
            (ih (.ty inner) buf)) with ⟨s1, s2, rest, h1, h2⟩ | ⟨e, h1, h2⟩
        · simp only [h1, h2]
          rcases shape_rel (ih (.arrLoop inner (i + 1) len) rest) with
              ⟨t1, t2, rest2, g1, g2⟩ | ⟨e, g1, g2⟩ <;> simp only [g1, g2, resShape, Except.map]
        · simp only [h1, h2, resShape, Except.map]
      · rw [if_neg hi, if_neg hi]
    | vecLoop inner i len =>
      simp only [de_go]
      by_cases hi : i < len
      · rw [if_pos hi, if_pos hi]
        rcases shape_rel (shape_wrap
            (.CompositeDeserializeError
              ("Vec[" ++ toString i ++ "] size(" ++ toString len ++ ")"))
            (ih (.ty inner) buf)) with ⟨s1, s2, rest, h1, h2⟩ | ⟨e, h1, h2⟩
        · simp only [h1, h2]
          rcases shape_rel (ih (.vecLoop inner (i + 1) len) rest) with
              ⟨t1, t2, rest2, g1, g2⟩ | ⟨e, g1, g2⟩ <;> simp only [g1, g2, resShape, Except.map]
        · simp only [h1, h2, resShape, Except.map]
      · rw [if_neg hi, if_neg hi]
    | setLoop inner i len =>
      simp only [de_go]
      by_cases hi : i < len
      · rw [if_pos hi, if_pos hi]
        rcases shape_rel (shape_wrap
            (.CompositeDeserializeError
              ("HashSet[" ++ toString i ++ "] size(" ++ toString len ++ ")"))
            (ih (.ty inner) buf)) with ⟨s1, s2, rest, h1, h2⟩ | ⟨e, h1, h2⟩
        · simp only [h1, h2]
          rcases shape_rel (ih (.setLoop inner (i + 1) len) rest) with
              ⟨t1, t2, rest2, g1, g2⟩ | ⟨e, g1, g2⟩ <;> simp only [g1, g2, resShape, Except.map]
        · simp only [h1, h2, resShape, Except.map]
      · rw [if_neg hi, if_neg hi]
    | mapLoop k v i len =>
      simp only [de_go]
      by_cases hi : i < len
      · rw [if_pos hi, if_pos hi]
        rcases shape_rel (shape_wrap
            (.CompositeDeserializeError
              ("Key HashMap[" ++ toString i ++ "] size(" ++ toString len ++ ")"))
            (ih (.ty k) buf)) with ⟨s1, s2, rest, h1, h2⟩ | ⟨e, h1, h2⟩
        · simp only [h1, h2]
          rcases shape_rel (shape_wrap
              (.CompositeDeserializeError
                ("Val HashMap[" ++ toString i ++ "] size(" ++ toString len ++ ")"))
              (ih (.ty v) rest)) with ⟨t1, t2, rest2, g1, g2⟩ | ⟨e, g1, g2⟩
          · simp only [g1, g2]
            rcases shape_rel (ih (.mapLoop k v (i + 1) len) rest2) with
                ⟨u1, u2, rest3, f1, f2⟩ | ⟨e, f1, f2⟩ <;> simp only [f1, f2, resShape, Except.map]
          · rw [g1, g2]
        · simp only [h1, h2, resShape, Except.map]
      · rw [if_neg hi, if_neg hi]
    | tupLoop ts =>
      cases ts with
      | nil => rfl
      | cons t rest =>
        simp only [de_go]
        rcases shape_rel (ih (.ty t) buf) with ⟨s1, s2, rbuf, h1, h2⟩ | ⟨e, h1, h2⟩
        · simp only [h1, h2]
          rcases shape_rel (ih (.tupLoop rest) rbuf) with
              ⟨t1, t2, rbuf2, g1, g2⟩ | ⟨e, g1, g2⟩ <;> simp only [g1, g2, resShape, Except.map]
        · simp only [h1, h2, resShape, Except.map]
    | tdefDe name d =>
      cases d with
      | Struct fields =>
        simp only [de_go]
        exact shape_wrap _ (ih (.fieldsObj fields) buf)
      | Enum variants =>
        simp only [de_go]
        cases buf with
        | nil => rfl
        | cons disc rest =>
          show resShape (match variants.get? disc with
              | some v => wrapErr (.EnumDeserializeError name)
                  (de_go p o1 tm fuel (.variantDe v) rest)
              | none => .error (.InvalidEnumVariantDiscriminator disc)) =
            resShape (match variants.get? disc with
              | some v => wrapErr (.EnumDeserializeError name)
                  (de_go p o2 tm fuel (.variantDe v) rest)
              | none => .error (.InvalidEnumVariantDiscriminator disc))
          cases hv : variants.get? disc with
          | none => rfl
          | some v => exact shape_wrap _ (ih (.variantDe v) rest)
    | fieldsObj fs =>
      simp only [de_go]
      rcases shape_rel (ih (.fieldsLoop fs) buf) with
          ⟨s1, s2, rest, h1, h2⟩ | ⟨e, h1, h2⟩ <;> simp only [h1, h2, resShape, Except.map]
    | fieldsLoop fs =>
      cases fs with
      | nil => rfl
      | cons f rest =>
        simp only [de_go]
        rcases shape_rel (shape_wrap (.FieldDeserializeError f.name)
            (ih (.ty f.ty) buf)) with ⟨s1, s2, rbuf, h1, h2⟩ | ⟨e, h1, h2⟩
        · simp only [h1, h2]
          rcases shape_rel (ih (.fieldsLoop rest) rbuf) with
              ⟨t1, t2, rbuf2, g1, g2⟩ | ⟨e, g1, g2⟩ <;> simp only [g1, g2, resShape, Except.map]
        · simp only [h1, h2, resShape, Except.map]
    | variantDe v =>
      obtain ⟨vname, vfields⟩ := v
      cases vfields with
      | none => rfl
      | some ef =>
        cases ef with
        | Named fs =>
          show resShape (match wrapErr (.EnumVariantDeserializeError vname)
              (de_go p o1 tm fuel (.fieldsObj fs) buf) with
            | .ok (s, rest) => .ok ("\x7b" ++ "\"" ++ vname ++ "\":" ++ s ++ "\x7d", rest)
            | .error e => .error e) =
            resShape (match wrapErr (.EnumVariantDeserializeError vname)
              (de_go p o2 tm fuel (.fieldsObj fs) buf) with
            | .ok (s, rest) => .ok ("\x7b" ++ "\"" ++ vname ++ "\":" ++ s ++ "\x7d", rest)
            | .error e => .error e)
          rcases shape_rel (shape_wrap (.EnumVariantDeserializeError vname)
              (ih (.fieldsObj fs) buf)) with ⟨s1, s2, rest, h1, h2⟩ | ⟨e, h1, h2⟩ <;>
            simp only [h1, h2, resShape, Except.map]
        | TupleFields ts =>
          show resShape (match wrapErr (.EnumVariantDeserializeError vname)
              (de_go p o1 tm fuel (.ty (.Tuple ts)) buf) with
            | .ok (s, rest) => .ok ("\x7b" ++ "\"" ++ vname ++ "\":" ++ s ++ "\x7d", rest)
            | .error e => .error e) =
            resShape (match wrapErr (.EnumVariantDeserializeError vname)
              (de_go p o2 tm fuel (.ty (.Tuple ts)) buf) with
            | .ok (s, rest) => .ok ("\x7b" ++ "\"" ++ vname ++ "\":" ++ s ++ "\x7d", rest)
            | .error e => .error e)
          rcases shape_rel (shape_wrap (.EnumVariantDeserializeError vname)
              (ih (.ty (.Tuple ts)) buf)) with ⟨s1, s2, rest, h1, h2⟩ | ⟨e, h1, h2⟩ <;>
            simp only [h1, h2, resShape, Except.map]
